import Mathlib

/-!
Verification of the resource-management core of the ARM SMMU driver
(drivers/iommu/arm-smmu.c): context-bank index allocation with a static
assignment table, secure page-ownership draining around map/unmap, the
context-fault register protocol, power/clock gating, the suspend/resume
register snapshot, and the ATS fault-verification probe.

Machine integers are modelled as Nat (register values are read/written
whole, never overflowed by the modelled code paths); C error returns are
either an explicit Int errno or an Option, as noted at each definition.
Kernel list_head lists become Lean lists; sequential (lock-held) execution
is assumed throughout, so test_and_set_bit always succeeds on the bit
found by find_next_zero_bit.
-/

namespace ArmSmmu

/-! ## Constants from arm-smmu.c -/

/-- S2CR type field values, shifted down (arm-smmu.c:509-511). -/
def TYPE_TRANS : Nat := 0

def TYPE_BYPASS : Nat := 1

def TYPE_FAULT : Nat := 2

/-- FSR bits (arm-smmu.c:255-264). -/
def FSR_MULTI : Nat := 2 ^ 31

def FSR_SS : Nat := 2 ^ 30

def FSR_UUT : Nat := 2 ^ 8

def FSR_ASF : Nat := 2 ^ 7

def FSR_TLBLKF : Nat := 2 ^ 6

def FSR_TLBMCF : Nat := 2 ^ 5

def FSR_EF : Nat := 2 ^ 4

def FSR_PF : Nat := 2 ^ 3

def FSR_AFF : Nat := 2 ^ 2

def FSR_TF : Nat := 2 ^ 1

/-- FSR_IGN (arm-smmu.c:284). -/
def FSR_IGN : Nat := FSR_AFF ||| FSR_ASF ||| FSR_TLBMCF ||| FSR_TLBLKF

/-- FSR_FAULT (arm-smmu.c:286). -/
def FSR_FAULT : Nat := FSR_MULTI ||| FSR_SS ||| FSR_UUT ||| FSR_EF ||| FSR_PF ||| FSR_TF ||| FSR_IGN

def RESUME_TERMINATE : Nat := 1

def SCTLR_CFCFG : Nat := 2 ^ 7

def CB_PAR_F : Nat := 1

def MICRO_MMU_CTRL_LOCAL_HALT_REQ : Nat := 2 ^ 2

/-- PHYS_MASK of the 48-bit physical address space (arch collaborator). -/
def PHYS_MASK : Nat := 2 ^ 48 - 1

/-- Linux errno values used by the modelled paths. -/
def EINVAL : Int := 22

def EBUSY : Int := 16

def ENODEV : Int := 19

def ENOSPC : Int := 28

/-! ## Resource bitmap allocator and static assignment table

The context-bank bitmap is a `List Bool` (bit i = slot i claimed); the
static table is the `static_cbndx_list` of `struct static_cbndx_entry`.
-/

structure StaticCbndxEntry where
  sid : Nat
  smr_idx : Nat
  cbndx : Nat
  type : Nat
deriving DecidableEq, Repr

/-- Linux `find_next_zero_bit(map, end, start)`: the least clear bit index
in [start, end), or `end` when none. -/
def find_next_zero_bit (map : List Bool) (endIdx start : Nat) : Nat :=
  match (List.range endIdx).find? (fun i => decide (start ≤ i) && !(map.getD i false)) with
  | some i => i
  | none => endIdx

/-- `__arm_smmu_alloc_bitmap` (arm-smmu.c:808): claim the first clear bit in
[start, end); `none` models the -ENOSPC return. Sequentially the
test_and_set_bit on a bit just found clear always succeeds. -/
def __arm_smmu_alloc_bitmap (map : List Bool) (start endIdx : Nat) : Option (Nat × List Bool) :=
  let idx := find_next_zero_bit map endIdx start
  if idx = endIdx then none
  else some (idx, map.set idx true)

/-- `__arm_smmu_free_bitmap` (arm-smmu.c:895). -/
def __arm_smmu_free_bitmap (map : List Bool) (idx : Nat) : List Bool :=
  map.set idx false

/-- `__arm_smmu_set_bitmap` (arm-smmu.c:821), used at probe to reserve the
bits of statically assigned context banks / SMRs. -/
def __arm_smmu_set_bitmap (map : List Bool) (idx : Nat) : List Bool :=
  map.set idx true

/-- `arm_smmu_get_static_entry_from_sid` (arm-smmu.c:826): first entry of
the static list whose sid matches. -/
def arm_smmu_get_static_entry_from_sid (l : List StaticCbndxEntry) (sid : Nat) :
    Option StaticCbndxEntry :=
  l.find? (fun e => e.sid == sid)

/-- `arm_smmu_get_static_entry_from_context` (arm-smmu.c:839): first entry
of type TRANS whose cbndx matches. -/
def arm_smmu_get_static_entry_from_context (l : List StaticCbndxEntry) (idx : Nat) :
    Option StaticCbndxEntry :=
  l.find? (fun e => e.type == TYPE_TRANS && e.cbndx == idx)

/-- The static lookup made by `arm_smmu_alloc_context_idx`'s loop
(arm-smmu.c:883-887): the entry of the first candidate stream ID whose
sid-lookup yields a TYPE_TRANS entry (the C loop keeps scanning while the
looked-up entry is NULL or not TRANS). -/
def staticResolve (l : List StaticCbndxEntry) : List Nat → Option StaticCbndxEntry
  | [] => none
  | sid :: rest =>
    match arm_smmu_get_static_entry_from_sid l sid with
    | some e => if e.type = TYPE_TRANS then some e else staticResolve l rest
    | none => staticResolve l rest

/-- `arm_smmu_alloc_context_idx` (arm-smmu.c:877): static table first, then
the bitmap. Returns the index and the bitmap after the call. -/
def arm_smmu_alloc_context_idx (l : List StaticCbndxEntry) (map : List Bool)
    (start endIdx : Nat) (streamids : List Nat) : Option (Nat × List Bool) :=
  match staticResolve l streamids with
  | some e => some (e.cbndx, map)
  | none => __arm_smmu_alloc_bitmap map start endIdx

/-- `arm_smmu_free_context_idx` (arm-smmu.c:909): the bit is cleared only
when no static TRANS entry owns the index. -/
def arm_smmu_free_context_idx (l : List StaticCbndxEntry) (map : List Bool)
    (idx : Nat) : List Bool :=
  match arm_smmu_get_static_entry_from_context l idx with
  | some _ => map
  | none => __arm_smmu_free_bitmap map idx

/-! ## Facts about the static lookup -/

theorem from_sid_mem {l : List StaticCbndxEntry} {sid : Nat} {e : StaticCbndxEntry}
    (h : arm_smmu_get_static_entry_from_sid l sid = some e) : e ∈ l ∧ e.sid = sid := by
  unfold arm_smmu_get_static_entry_from_sid at h
  refine ⟨List.mem_of_find?_eq_some h, ?_⟩
  have := List.find?_some h
  simpa using this

theorem from_sid_of_mem {l : List StaticCbndxEntry} {e : StaticCbndxEntry}
    (hnodup : (l.map StaticCbndxEntry.sid).Nodup) (he : e ∈ l) :
    arm_smmu_get_static_entry_from_sid l e.sid = some e := by
  induction l with
  | nil => simp at he
  | cons a t ih =>
    simp only [List.map_cons, List.nodup_cons] at hnodup
    rcases List.mem_cons.mp he with rfl | hmem
    · simp [arm_smmu_get_static_entry_from_sid]
    · have hne : ¬ ((fun x : StaticCbndxEntry => x.sid == e.sid) a) = true := by
        simp only [beq_iff_eq]
        intro hEq
        exact hnodup.1 (hEq ▸ List.mem_map_of_mem StaticCbndxEntry.sid hmem)
      unfold arm_smmu_get_static_entry_from_sid
      rw [@List.find?_cons_of_neg StaticCbndxEntry (fun x => x.sid == e.sid) a t hne]
      simpa [arm_smmu_get_static_entry_from_sid] using ih hnodup.2 hmem

theorem from_context_eq_some {l : List StaticCbndxEntry} {idx : Nat}
    (h : ∃ e ∈ l, e.type = TYPE_TRANS ∧ e.cbndx = idx) :
    ∃ e, arm_smmu_get_static_entry_from_context l idx = some e := by
  cases hc : arm_smmu_get_static_entry_from_context l idx with
  | some e => exact ⟨e, rfl⟩
  | none =>
    obtain ⟨e, he, ht, hi⟩ := h
    unfold arm_smmu_get_static_entry_from_context at hc
    rw [List.find?_eq_none] at hc
    exact absurd (by simp [ht, hi]) (hc e he)

theorem staticResolve_some_of_exists {l : List StaticCbndxEntry} {sids : List Nat}
    (hnodup : (l.map StaticCbndxEntry.sid).Nodup)
    (hex : ∃ sid ∈ sids, ∃ e ∈ l, e.sid = sid ∧ e.type = TYPE_TRANS) :
    ∃ e, staticResolve l sids = some e ∧ e ∈ l ∧ e.type = TYPE_TRANS ∧ e.sid ∈ sids := by
  induction sids with
  | nil => obtain ⟨sid, h, _⟩ := hex; simp at h
  | cons s t ih =>
    obtain ⟨sid, hsid, e, he, hesid, het⟩ := hex
    cases hc : arm_smmu_get_static_entry_from_sid l s with
    | some e0 =>
      by_cases ht0 : e0.type = TYPE_TRANS
      · obtain ⟨h0mem, h0sid⟩ := from_sid_mem hc
        exact ⟨e0, by simp [staticResolve, hc, ht0], h0mem, ht0, by simp [h0sid]⟩
      · have hst : s ≠ sid ∨ s = sid := (ne_or_eq s sid)
        have hmem : sid ∈ t := by
          rcases List.mem_cons.mp hsid with rfl | hm
          · exfalso
            have := from_sid_of_mem hnodup he
            rw [hesid] at this
            rw [this] at hc
            cases hc
            exact ht0 het
          · exact hm
        obtain ⟨e', h1, h2, h3, h4⟩ := ih ⟨sid, hmem, e, he, hesid, het⟩
        exact ⟨e', by simp [staticResolve, hc, ht0, h1], h2, h3, List.mem_cons_of_mem _ h4⟩
    | none =>
      have hmem : sid ∈ t := by
        rcases List.mem_cons.mp hsid with rfl | hm
        · exfalso
          have := from_sid_of_mem hnodup he
          rw [hesid] at this
          rw [this] at hc
          cases hc
        · exact hm
      obtain ⟨e', h1, h2, h3, h4⟩ := ih ⟨sid, hmem, e, he, hesid, het⟩
      exact ⟨e', by simp [staticResolve, hc, h1], h2, h3, List.mem_cons_of_mem _ h4⟩

/-- C2: a candidate stream ID with a static TYPE_TRANS entry makes
`arm_smmu_alloc_context_idx` return that entry's pre-recorded bank index
with the bitmap untouched (no slot claimed, exhaustion bypassed), and
`arm_smmu_free_context_idx` of an index recorded by a static TRANS entry
never clears a bitmap bit, so static bindings are never freed back to the
pool. The static table is assumed to hold at most one entry per stream ID
(it is built from the per-SMR probe scan). -/
theorem static_trans_priority (l : List StaticCbndxEntry) (map : List Bool)
    (start endIdx : Nat) (streamids : List Nat)
    (hnodup : (l.map StaticCbndxEntry.sid).Nodup)
    (hex : ∃ sid ∈ streamids, ∃ e ∈ l, e.sid = sid ∧ e.type = TYPE_TRANS) :
    (∃ e ∈ l, e.type = TYPE_TRANS ∧ e.sid ∈ streamids ∧
        arm_smmu_alloc_context_idx l map start endIdx streamids = some (e.cbndx, map)) ∧
    ∀ idx, (∃ e ∈ l, e.type = TYPE_TRANS ∧ e.cbndx = idx) →
        arm_smmu_free_context_idx l map idx = map := by
  constructor
  · obtain ⟨e, h1, h2, h3, h4⟩ := staticResolve_some_of_exists hnodup hex
    exact ⟨e, h2, h3, h4, by simp [arm_smmu_alloc_context_idx, h1]⟩
  · intro idx hidx
    obtain ⟨e, he⟩ := from_context_eq_some hidx
    simp [arm_smmu_free_context_idx, he]

/-- Witness for `static_trans_priority`: a one-entry static table with
stream ID 5 bound to bank 2; allocation for candidate [5] returns bank 2
without touching the bitmap, and freeing bank 2 is a no-op. -/
theorem static_trans_priority_witness :
    arm_smmu_alloc_context_idx [⟨5, 0, 2, TYPE_TRANS⟩] [false, false, false, false] 0 4 [5] =
      some (2, [false, false, false, false]) ∧
    arm_smmu_free_context_idx [⟨5, 0, 2, TYPE_TRANS⟩] [false, false, false, false] 2 =
      [false, false, false, false] := by
  have h := static_trans_priority [⟨5, 0, 2, TYPE_TRANS⟩] [false, false, false, false] 0 4 [5]
    (by decide) ⟨5, by decide, ⟨5, 0, 2, TYPE_TRANS⟩, by decide, rfl, rfl⟩
  obtain ⟨⟨e, he, ht, hs, halloc⟩, hfree⟩ := h
  have : e = ⟨5, 0, 2, TYPE_TRANS⟩ := by simpa using he
  subst this
  exact ⟨halloc, hfree 2 ⟨⟨5, 0, 2, TYPE_TRANS⟩, by decide, rfl, rfl⟩⟩

/-! ## C1: context-bank ownership protocol

Attach negotiates an index through `arm_smmu_alloc_context_idx`
(arm-smmu.c:1866-1873) and records it in the live domain's cfg; detach
(`arm_smmu_destroy_domain_context`, arm-smmu.c:1998) returns it through
`arm_smmu_free_context_idx` and invalidates the cfg. A master device can
hold at most one live attachment at a time (the `dev->archdata.iommu`
check, arm-smmu.c:2337). At probe every static TRANS entry's bank bit is
pre-set in the bitmap (`arm_smmu_add_static_cbndx`, arm-smmu.c:4010). -/

structure LiveDom where
  master : Nat
  idx : Nat
deriving DecidableEq, Repr

structure AllocSt where
  map : List Bool
  live : List LiveDom
deriving DecidableEq, Repr

structure AllocEnv where
  staticList : List StaticCbndxEntry
  masters : Nat → List Nat
  numCb : Nat

inductive AllocStep (env : AllocEnv) : AllocSt → AllocSt → Prop
  | attach (s : AllocSt) (m idx : Nat) (map' : List Bool)
      (hfree : ∀ d ∈ s.live, d.master ≠ m)
      (halloc : arm_smmu_alloc_context_idx env.staticList s.map 0 env.numCb
          (env.masters m) = some (idx, map')) :
      AllocStep env s ⟨map', ⟨m, idx⟩ :: s.live⟩
  | detach (s : AllocSt) (d : LiveDom) (hd : d ∈ s.live) :
      AllocStep env s ⟨arm_smmu_free_context_idx env.staticList s.map d.idx,
        s.live.filter (fun x => x.master != d.master)⟩

inductive AllocReach (env : AllocEnv) (init : AllocSt) : AllocSt → Prop
  | refl : AllocReach env init init
  | step {s t : AllocSt} : AllocReach env init s → AllocStep env s t → AllocReach env init t

/-- Firmware sanity of the static table: one entry per stream ID, and the
TRANS entries name pairwise distinct context banks. -/
def StaticWF (l : List StaticCbndxEntry) : Prop :=
  (l.map StaticCbndxEntry.sid).Nodup ∧
  ((l.filter (fun e => e.type == TYPE_TRANS)).map StaticCbndxEntry.cbndx).Nodup

/-- Device-tree sanity: a stream ID belongs to at most one master. -/
def MastersDisjoint (masters : Nat → List Nat) : Prop :=
  ∀ m₁ m₂ sid, m₁ ≠ m₂ → sid ∈ masters m₁ → sid ∉ masters m₂

/-- Probe-established initial state: no live domain, the bitmap sized for
the bank space, and the bank bit of every static TRANS entry already set
(arm-smmu.c:4010). -/
def InitOk (env : AllocEnv) (s : AllocSt) : Prop :=
  s.live = [] ∧ env.numCb ≤ s.map.length ∧
  ∀ e ∈ env.staticList, e.type = TYPE_TRANS → s.map.getD e.cbndx false = true

def IsStaticTransCbndx (l : List StaticCbndxEntry) (idx : Nat) : Prop :=
  ∃ e ∈ l, e.type = TYPE_TRANS ∧ e.cbndx = idx

/-- Inductive invariant of the ownership protocol. -/
def AllocInv (env : AllocEnv) (s : AllocSt) : Prop :=
  env.numCb ≤ s.map.length ∧
  (∀ e ∈ env.staticList, e.type = TYPE_TRANS → s.map.getD e.cbndx false = true) ∧
  (∀ d ∈ s.live, ¬ IsStaticTransCbndx env.staticList d.idx →
      s.map.getD d.idx false = true) ∧
  (∀ d ∈ s.live, IsStaticTransCbndx env.staticList d.idx →
      ∃ e, staticResolve env.staticList (env.masters d.master) = some e ∧ e.cbndx = d.idx) ∧
  (s.live.map LiveDom.master).Nodup ∧
  (s.live.map LiveDom.idx).Nodup

theorem staticResolve_mem {l : List StaticCbndxEntry} {sids : List Nat}
    {e : StaticCbndxEntry} (h : staticResolve l sids = some e) :
    e ∈ l ∧ e.type = TYPE_TRANS ∧ e.sid ∈ sids := by
  induction sids with
  | nil => simp [staticResolve] at h
  | cons s t ih =>
    cases hc : arm_smmu_get_static_entry_from_sid l s with
    | some e0 =>
      by_cases ht0 : e0.type = TYPE_TRANS
      · simp only [staticResolve, hc, if_pos ht0, Option.some.injEq] at h
        cases h
        obtain ⟨hm, hs⟩ := from_sid_mem hc
        exact ⟨hm, ht0, by simp [hs]⟩
      · simp only [staticResolve, hc, if_neg ht0] at h
        obtain ⟨h1, h2, h3⟩ := ih h
        exact ⟨h1, h2, List.mem_cons_of_mem _ h3⟩
    | none =>
      simp only [staticResolve, hc] at h
      obtain ⟨h1, h2, h3⟩ := ih h
      exact ⟨h1, h2, List.mem_cons_of_mem _ h3⟩

theorem find_next_zero_bit_spec {map : List Bool} {endIdx start i : Nat}
    (h : find_next_zero_bit map endIdx start = i) (hne : i ≠ endIdx) :
    start ≤ i ∧ i < endIdx ∧ map.getD i false = false := by
  unfold find_next_zero_bit at h
  cases hc : (List.range endIdx).find?
      (fun j => decide (start ≤ j) && !(map.getD j false)) with
  | none => rw [hc] at h; exact absurd h.symm hne
  | some j =>
    rw [hc] at h
    cases h
    have hmem := List.mem_of_find?_eq_some hc
    have hp := List.find?_some hc
    simp only [Bool.and_eq_true, decide_eq_true_eq, Bool.not_eq_true'] at hp
    exact ⟨hp.1, List.mem_range.mp hmem, hp.2⟩

/-- Case analysis of `arm_smmu_alloc_context_idx`. -/
theorem alloc_context_idx_cases {l : List StaticCbndxEntry} {map map' : List Bool}
    {start endIdx idx : Nat} {sids : List Nat}
    (h : arm_smmu_alloc_context_idx l map start endIdx sids = some (idx, map')) :
    (∃ e, staticResolve l sids = some e ∧ idx = e.cbndx ∧ map' = map) ∨
    (staticResolve l sids = none ∧ map.getD idx false = false ∧
      map' = map.set idx true ∧ start ≤ idx ∧ idx < endIdx) := by
  unfold arm_smmu_alloc_context_idx at h
  cases hc : staticResolve l sids with
  | some e =>
    rw [hc] at h
    cases h
    exact Or.inl ⟨e, rfl, rfl, rfl⟩
  | none =>
    rw [hc] at h
    unfold __arm_smmu_alloc_bitmap at h
    by_cases hz : find_next_zero_bit map endIdx start = endIdx
    · simp [hz] at h
    · rw [if_neg (by rw [show find_next_zero_bit map endIdx start =
          find_next_zero_bit map endIdx start from rfl]; exact hz)] at h
      cases h
      obtain ⟨h1, h2, h3⟩ := find_next_zero_bit_spec rfl hz
      exact Or.inr ⟨rfl, h3, rfl, h1, h2⟩

theorem nodup_map_ne {α β : Type} {l : List α} {f : α → β} (h : (l.map f).Nodup)
    {a b : α} (ha : a ∈ l) (hb : b ∈ l) (hne : a ≠ b) : f a ≠ f b := by
  intro hEq
  exact hne (List.inj_on_of_nodup_map h ha hb hEq)

theorem getD_set_self : ∀ (l : List Bool) (i : Nat), i < l.length → ∀ b : Bool,
    (l.set i b).getD i false = b := by
  intro l
  induction l with
  | nil => intro i h; simp at h
  | cons a t ih =>
    intro i h b
    cases i with
    | zero => simp
    | succ n =>
      simp only [List.set, List.getD_cons_succ]
      exact ih n (by simpa using Nat.lt_of_succ_lt_succ h) b

theorem getD_set_ne : ∀ (l : List Bool) (i j : Nat), i ≠ j → ∀ b : Bool,
    (l.set i b).getD j false = l.getD j false := by
  intro l
  induction l with
  | nil => intro i j _ b; simp
  | cons a t ih =>
    intro i j hne b
    cases i with
    | zero =>
      cases j with
      | zero => exact absurd rfl hne
      | succ m => simp
    | succ n =>
      cases j with
      | zero => simp
      | succ m =>
        simp only [List.set, List.getD_cons_succ]
        exact ih n m (fun hEq => hne (by rw [hEq])) b

theorem not_static_trans_of_bit_clear {env : AllocEnv} {s : AllocSt} {idx : Nat}
    (hinv : AllocInv env s) (hbit : s.map.getD idx false = false) :
    ¬ IsStaticTransCbndx env.staticList idx := by
  rintro ⟨e, he, ht, hi⟩
  have := hinv.2.1 e he ht
  rw [hi] at this
  rw [this] at hbit
  cases hbit

/-- A successful allocation returns an index owned by no live domain,
given the invariant and the one-attachment-per-master guard. -/
theorem alloc_returns_fresh {env : AllocEnv} {s : AllocSt} {m idx : Nat}
    {map' : List Bool}
    (hwf : StaticWF env.staticList) (hdisj : MastersDisjoint env.masters)
    (hinv : AllocInv env s)
    (hguard : ∀ d ∈ s.live, d.master ≠ m)
    (halloc : arm_smmu_alloc_context_idx env.staticList s.map 0 env.numCb
        (env.masters m) = some (idx, map')) :
    ∀ d ∈ s.live, d.idx ≠ idx := by
  intro d hd hEq
  rcases alloc_context_idx_cases halloc with
    ⟨e, hres, hidx, _⟩ | ⟨_, hbit, _, _, _⟩
  · -- static branch: idx is e.cbndx for the entry resolved from m's stream IDs
    obtain ⟨heL, heT, _⟩ := staticResolve_mem hres
    have hst : IsStaticTransCbndx env.staticList d.idx :=
      ⟨e, heL, heT, by rw [hEq, hidx]⟩
    obtain ⟨ed, hresd, hedidx⟩ := hinv.2.2.2.1 d hd hst
    obtain ⟨hedL, hedT, hedS⟩ := staticResolve_mem hresd
    -- the two resolved TRANS entries share a cbndx, so they are equal
    have hee : ed = e := by
      by_contra hne
      have hmem1 : ed ∈ env.staticList.filter (fun x => x.type == TYPE_TRANS) :=
        List.mem_filter.mpr ⟨hedL, by simp [hedT]⟩
      have hmem2 : e ∈ env.staticList.filter (fun x => x.type == TYPE_TRANS) :=
        List.mem_filter.mpr ⟨heL, by simp [heT]⟩
      exact nodup_map_ne hwf.2 hmem1 hmem2 hne (by rw [hedidx, hEq, hidx])
    -- so the entry's sid lies in both masters' stream ID lists
    obtain ⟨_, _, heS⟩ := staticResolve_mem hres
    rw [hee] at hedS
    by_cases hm : d.master = m
    · exact hguard d hd hm
    · exact hdisj d.master m e.sid hm hedS heS
  · -- bitmap branch: the claimed bit was clear, but every owned index has
    -- its bit set (statically at probe or by its own allocation)
    by_cases hst : IsStaticTransCbndx env.staticList d.idx
    · obtain ⟨e, he, ht, hi⟩ := hst
      have := hinv.2.1 e he ht
      rw [hi, hEq] at this
      rw [this] at hbit
      cases hbit
    · have := hinv.2.2.1 d hd hst
      rw [hEq] at this
      rw [this] at hbit
      cases hbit

theorem alloc_inv_step {env : AllocEnv} {s t : AllocSt}
    (hwf : StaticWF env.staticList) (hdisj : MastersDisjoint env.masters)
    (hinv : AllocInv env s) (hstep : AllocStep env s t) : AllocInv env t := by
  obtain ⟨hlen, hI1, hI2, hI3, hI4, hI5⟩ := hinv
  cases hstep with
  | attach m idx map' hfree halloc =>
    have hfresh := alloc_returns_fresh hwf hdisj
      ⟨hlen, hI1, hI2, hI3, hI4, hI5⟩ hfree halloc
    have hmnotin : m ∉ s.live.map LiveDom.master := by
      intro hmem
      obtain ⟨d, hd, hdm⟩ := List.mem_map.mp hmem
      exact hfree d hd hdm
    have hidxnotin : idx ∉ s.live.map LiveDom.idx := by
      intro hmem
      obtain ⟨d, hd, hdm⟩ := List.mem_map.mp hmem
      exact hfresh d hd hdm
    rcases alloc_context_idx_cases halloc with
      ⟨e, hres, hidx, hmapEq⟩ | ⟨_, hbit, hmapEq, _, hlt⟩
    · -- static branch: bitmap untouched
      subst hmapEq
      refine ⟨hlen, hI1, ?_, ?_, ?_, ?_⟩
      · intro d hd hnst
        rcases List.mem_cons.mp hd with rfl | hmem
        · exact absurd ⟨e, (staticResolve_mem hres).1,
            (staticResolve_mem hres).2.1, hidx.symm⟩ hnst
        · exact hI2 d hmem hnst
      · intro d hd hst
        rcases List.mem_cons.mp hd with rfl | hmem
        · exact ⟨e, hres, hidx.symm⟩
        · exact hI3 d hmem hst
      · exact List.nodup_cons.mpr ⟨hmnotin, hI4⟩
      · exact List.nodup_cons.mpr ⟨hidxnotin, hI5⟩
    · -- bitmap branch: bit idx goes from clear to set
      have hnst : ¬ IsStaticTransCbndx env.staticList idx :=
        not_static_trans_of_bit_clear ⟨hlen, hI1, hI2, hI3, hI4, hI5⟩ hbit
      have hidxlen : idx < s.map.length := lt_of_lt_of_le hlt hlen
      subst hmapEq
      refine ⟨by simpa using hlen, ?_, ?_, ?_, ?_, ?_⟩
      · intro e' he' ht'
        have hne : idx ≠ e'.cbndx := by
          intro hEq
          exact hnst ⟨e', he', ht', hEq.symm⟩
        rw [getD_set_ne _ _ _ hne]
        exact hI1 e' he' ht'
      · intro d hd hnstd
        rcases List.mem_cons.mp hd with rfl | hmem
        · exact getD_set_self _ _ hidxlen true
        · have hne : idx ≠ d.idx := fun hEq => hfresh d hmem hEq.symm
          rw [getD_set_ne _ _ _ hne]
          exact hI2 d hmem hnstd
      · intro d hd hst
        rcases List.mem_cons.mp hd with rfl | hmem
        · exact absurd hst hnst
        · exact hI3 d hmem hst
      · exact List.nodup_cons.mpr ⟨hmnotin, hI4⟩
      · exact List.nodup_cons.mpr ⟨hidxnotin, hI5⟩
  | detach d hd =>
    have hsub : List.Sublist (s.live.filter (fun x => x.master != d.master)) s.live :=
      List.filter_sublist _
    have hmemof : ∀ x ∈ s.live.filter (fun x => x.master != d.master),
        x ∈ s.live ∧ x.master ≠ d.master := by
      intro x hx
      have := List.mem_filter.mp hx
      exact ⟨this.1, by simpa using this.2⟩
    have hidxne : ∀ x ∈ s.live.filter (fun x => x.master != d.master),
        x.idx ≠ d.idx := by
      intro x hx
      obtain ⟨hxl, hxm⟩ := hmemof x hx
      have hxd : x ≠ d := fun hEq => hxm (by rw [hEq])
      exact nodup_map_ne hI5 hxl hd hxd
    have hI4' := hI4.sublist (hsub.map LiveDom.master)
    have hI5' := hI5.sublist (hsub.map LiveDom.idx)
    cases hc : arm_smmu_get_static_entry_from_context env.staticList d.idx with
    | some e =>
      refine ⟨?_, ?_, ?_, ?_, hI4', hI5'⟩ <;>
        simp only [arm_smmu_free_context_idx, hc]
      · exact hlen
      · exact hI1
      · intro x hx hnst
        exact hI2 x (hmemof x hx).1 hnst
      · intro x hx hst
        exact hI3 x (hmemof x hx).1 hst
    | none =>
      have hnst : ¬ IsStaticTransCbndx env.staticList d.idx := by
        rintro ⟨e, he, ht, hi⟩
        unfold arm_smmu_get_static_entry_from_context at hc
        rw [List.find?_eq_none] at hc
        exact hc e he (by simp [ht, hi])
      refine ⟨?_, ?_, ?_, ?_, hI4', hI5'⟩ <;>
        simp only [arm_smmu_free_context_idx, hc, __arm_smmu_free_bitmap]
      · simpa using hlen
      · intro e' he' ht'
        have hne : d.idx ≠ e'.cbndx := by
          intro hEq
          exact hnst ⟨e', he', ht', hEq.symm⟩
        rw [getD_set_ne _ _ _ hne]
        exact hI1 e' he' ht'
      · intro x hx hnstx
        rw [getD_set_ne _ _ _ (fun hEq => hidxne x hx hEq.symm)]
        exact hI2 x (hmemof x hx).1 hnstx
      · intro x hx hst
        exact hI3 x (hmemof x hx).1 hst

theorem alloc_inv_reach {env : AllocEnv} {init s : AllocSt}
    (hwf : StaticWF env.staticList) (hdisj : MastersDisjoint env.masters)
    (hinit : InitOk env init) (hreach : AllocReach env init s) :
    AllocInv env s := by
  induction hreach with
  | refl =>
    obtain ⟨hlive, hlen, hbits⟩ := hinit
    exact ⟨hlen, hbits, by simp [hlive], by simp [hlive], by simp [hlive],
      by simp [hlive]⟩
  | step _ hstep ih => exact alloc_inv_step hwf hdisj ih hstep

/-- C1: in every state the ownership protocol can reach, the context-bank
indices bound by live domains are pairwise distinct (at most one live
domain per index), and an allocation performed for a master with no live
attachment never returns an index owned by a live domain. Since the only
free in the protocol is the owner's own detach (which drops the owner's
binding in the same step), an index can never be freed and re-allocated
while a live domain still references it. Hypotheses: the static table has
one entry per stream ID and distinct TRANS banks, stream IDs belong to at
most one master, and probe pre-set the static TRANS bits. -/
theorem context_bank_single_owner (env : AllocEnv) (init s : AllocSt)
    (hwf : StaticWF env.staticList) (hdisj : MastersDisjoint env.masters)
    (hinit : InitOk env init) (hreach : AllocReach env init s) :
    (s.live.map LiveDom.idx).Nodup ∧
    ∀ m idx map', (∀ d ∈ s.live, d.master ≠ m) →
      arm_smmu_alloc_context_idx env.staticList s.map 0 env.numCb
        (env.masters m) = some (idx, map') →
      ∀ d ∈ s.live, d.idx ≠ idx := by
  have hinv := alloc_inv_reach hwf hdisj hinit hreach
  exact ⟨hinv.2.2.2.2.2, fun m idx map' hguard halloc =>
    alloc_returns_fresh hwf hdisj hinv hguard halloc⟩

/-- Witness for `context_bank_single_owner`: a device with 4 banks, one
static TRANS entry (stream ID 5 → bank 2, bit pre-set) and per-master
stream ID lists [m]; after master 5 attaches (statically, getting bank 2),
the live bindings are duplicate-free. -/
theorem context_bank_single_owner_witness :
    ((AllocSt.live ⟨[false, false, true, false], [⟨5, 2⟩]⟩).map LiveDom.idx).Nodup := by
  have hdisj : MastersDisjoint (fun m => [m]) := by
    intro m1 m2 sid hne h1 h2
    simp only [List.mem_singleton] at h1 h2
    exact hne (h1 ▸ h2 ▸ rfl)
  have hstep : AllocStep ⟨[⟨5, 0, 2, TYPE_TRANS⟩], fun m => [m], 4⟩
      ⟨[false, false, true, false], []⟩
      ⟨[false, false, true, false], [⟨5, 2⟩]⟩ :=
    AllocStep.attach ⟨[false, false, true, false], []⟩ 5 2
      [false, false, true, false] (by simp) (by decide)
  exact (context_bank_single_owner ⟨[⟨5, 0, 2, TYPE_TRANS⟩], fun m => [m], 4⟩
    ⟨[false, false, true, false], []⟩ ⟨[false, false, true, false], [⟨5, 2⟩]⟩
    ⟨by decide, by decide⟩ hdisj ⟨rfl, by decide, by decide⟩
    (AllocReach.step AllocReach.refl hstep)).1

/-! ## Secure memory ownership tracking (C3, C10)

Models `arm_smmu_assign_table` / `arm_smmu_unassign_table`
(arm-smmu.c:2511-2565), the page-table memory callbacks
(arm-smmu.c:1216-1300) and the map/unmap entry points
(arm-smmu.c:2597-2620, 2692-2766). The io-pgtable collaborator is opaque:
a map/unmap call is modelled by the sequence of page-allocation callbacks
it performs plus its return status. Hypervisor results come from an
oracle `hypRes : Nat → Int` (0 = success); kzalloc of the little tracking
records is assumed to succeed. -/

structure SecDomain where
  masterSideSecure : Bool
  hasPgtblOps : Bool
  pteInfoList : List Nat
  unassignList : List (Nat × Nat)
  securePool : List (Nat × Nat)
deriving DecidableEq, Repr

inductive HypCall
  | assign (addr : Nat)
  | unassign (addr : Nat)
deriving DecidableEq, Repr

/-- The first loop of `arm_smmu_assign_table` (arm-smmu.c:2522-2528): one
hyp_assign_phys per pending page, stopping after the first failure.
Returns the last hyp status and the calls made. -/
def assignLoop (hypRes : Nat → Int) : List Nat → Int × List HypCall
  | [] => (0, [])
  | a :: rest =>
    if hypRes a = 0 then
      let r := assignLoop hypRes rest
      (r.1, HypCall.assign a :: r.2)
    else (hypRes a, [HypCall.assign a])

/-- `arm_smmu_assign_table` (arm-smmu.c:2511): drain the pending-assign
list (the second loop deletes every entry regardless of the first loop's
outcome). -/
def arm_smmu_assign_table (hypRes : Nat → Int) (d : SecDomain) :
    Int × List HypCall × SecDomain :=
  if !d.masterSideSecure then (0, [], d)
  else
    let r := assignLoop hypRes d.pteInfoList
    (r.1, r.2, { d with pteInfoList := [] })

/-- The first loop of `arm_smmu_unassign_table` (arm-smmu.c:2549-2557):
one hyp call per pending page, freeing it on success, stopping after the
first failure. Returns the calls made and the pages physically freed. -/
def unassignLoop (hypRes : Nat → Int) : List (Nat × Nat) → List HypCall × List (Nat × Nat)
  | [] => ([], [])
  | p :: rest =>
    if hypRes p.1 = 0 then
      let r := unassignLoop hypRes rest
      (HypCall.unassign p.1 :: r.1, p :: r.2)
    else ([HypCall.unassign p.1], [])

/-- `arm_smmu_unassign_table` (arm-smmu.c:2538): drain the pending-unassign
list (again all entries are deleted regardless of hyp failures). -/
def arm_smmu_unassign_table (hypRes : Nat → Int) (d : SecDomain) :
    List HypCall × List (Nat × Nat) × SecDomain :=
  if !d.masterSideSecure then ([], [], d)
  else
    let r := unassignLoop hypRes d.unassignList
    (r.1, r.2, { d with unassignList := [] })

/-- `arm_smmu_prepare_pgtable` (arm-smmu.c:2583): record a freshly
allocated page on the pending-assign list (list_add_tail). -/
def arm_smmu_prepare_pgtable (d : SecDomain) (addr : Nat) : SecDomain :=
  { d with pteInfoList := d.pteInfoList ++ [addr] }

/-- `arm_smmu_unprepare_pgtable` (arm-smmu.c:2567): record a page on the
pending-unassign list. -/
def arm_smmu_unprepare_pgtable (d : SecDomain) (addr size : Nat) : SecDomain :=
  { d with unassignList := d.unassignList ++ [(addr, size)] }

/-- `arm_smmu_secure_pool_remove` (arm-smmu.c:1222): first same-size chunk
of the secure pool, removed. -/
def arm_smmu_secure_pool_remove (d : SecDomain) (size : Nat) :
    Option Nat × SecDomain :=
  match d.securePool.find? (fun c => c.2 == size) with
  | some c => (some c.1, { d with securePool := d.securePool.erase c })
  | none => (none, d)

/-- `arm_smmu_secure_pool_add` (arm-smmu.c:1240): zero and pool the chunk
(list_add puts it at the head). -/
def arm_smmu_secure_pool_add (d : SecDomain) (addr size : Nat) : SecDomain :=
  { d with securePool := (addr, size) :: d.securePool }

/-- `arm_smmu_alloc_pages_exact` (arm-smmu.c:1269): pool first; a fresh
allocation (address supplied by the collaborator model) is recorded for
assignment. Non-secure domains allocate directly. -/
def arm_smmu_alloc_pages_exact (d : SecDomain) (size fresh : Nat) :
    SecDomain × Nat :=
  if !d.masterSideSecure then (d, fresh)
  else
    match arm_smmu_secure_pool_remove d size with
    | (some addr, d') => (d', addr)
    | (none, d') => (arm_smmu_prepare_pgtable d' fresh, fresh)

/-- `arm_smmu_free_pages_exact` (arm-smmu.c:1289): non-secure domains free
directly; master-side-secure pages go back to the pool (the
kmalloc-failure fallback to `arm_smmu_unprepare_pgtable` is not taken in
the no-OOM model). -/
def arm_smmu_free_pages_exact (d : SecDomain) (addr size : Nat) : SecDomain :=
  if !d.masterSideSecure then d
  else arm_smmu_secure_pool_add d addr size

/-- One page-allocation callback performed by the io-pgtable collaborator
during a map/unmap call. -/
inductive PgEvent
  | allocPg (size fresh : Nat)
  | freePg (addr size : Nat)
deriving DecidableEq, Repr

def processPgEvents (d : SecDomain) : List PgEvent → SecDomain
  | [] => d
  | PgEvent.allocPg sz fresh :: rest =>
    processPgEvents (arm_smmu_alloc_pages_exact d sz fresh).1 rest
  | PgEvent.freePg a sz :: rest =>
    processPgEvents (arm_smmu_free_pages_exact d a sz) rest

/-- `arm_smmu_map` (arm-smmu.c:2597): -ENODEV without ops; otherwise run
the page-table op (its callbacks, then its status) and, only on success,
drain the pending-assign list. Returns (status, hyp calls, domain). -/
def arm_smmu_map (hypRes : Nat → Int) (d : SecDomain) (events : List PgEvent)
    (mapStatus : Int) : Int × List HypCall × SecDomain :=
  if !d.hasPgtblOps then (-ENODEV, [], d)
  else
    let d1 := processPgEvents d events
    if mapStatus = 0 then
      let r := arm_smmu_assign_table hypRes d1
      (r.1, r.2.1, r.2.2)
    else (mapStatus, [], d1)

/-- `arm_smmu_unmap` (arm-smmu.c:2692): size 0 without ops; otherwise run
the page-table op, then drain pending-assign; a failed drain also drains
pending-unassign and reports size 0, a successful one drains
pending-unassign and reports the op's size. -/
def arm_smmu_unmap (hypRes : Nat → Int) (d : SecDomain) (events : List PgEvent)
    (unmapRet : Nat) : Nat × List HypCall × SecDomain :=
  if !d.hasPgtblOps then (0, [], d)
  else
    let d1 := processPgEvents d events
    let ra := arm_smmu_assign_table hypRes d1
    if ra.1 ≠ 0 then
      let ru := arm_smmu_unassign_table hypRes ra.2.2
      (0, ra.2.1 ++ ru.1, ru.2.2)
    else
      let ru := arm_smmu_unassign_table hypRes ra.2.2
      (unmapRet, ra.2.1 ++ ru.1, ru.2.2)

theorem pool_remove_fields (d : SecDomain) (sz : Nat) :
    ((arm_smmu_secure_pool_remove d sz).2).masterSideSecure = d.masterSideSecure ∧
    ((arm_smmu_secure_pool_remove d sz).2).hasPgtblOps = d.hasPgtblOps ∧
    ((arm_smmu_secure_pool_remove d sz).2).unassignList = d.unassignList := by
  unfold arm_smmu_secure_pool_remove
  cases hf : d.securePool.find? (fun c => c.2 == sz) <;> simp

theorem alloc_pages_fields (d : SecDomain) (sz fresh : Nat) :
    ((arm_smmu_alloc_pages_exact d sz fresh).1).masterSideSecure = d.masterSideSecure ∧
    ((arm_smmu_alloc_pages_exact d sz fresh).1).hasPgtblOps = d.hasPgtblOps ∧
    ((arm_smmu_alloc_pages_exact d sz fresh).1).unassignList = d.unassignList := by
  unfold arm_smmu_alloc_pages_exact
  by_cases hms : d.masterSideSecure = true
  · have hfields := pool_remove_fields d sz
    rcases hr : arm_smmu_secure_pool_remove d sz with ⟨o, d'⟩
    rw [hr] at hfields
    obtain ⟨f1, f2, f3⟩ := hfields
    cases o with
    | some addr =>
      simp [hms, hr]
      exact ⟨f1.trans hms, f2, f3⟩
    | none =>
      simp [hms, hr, arm_smmu_prepare_pgtable]
      exact ⟨f1.trans hms, f2, f3⟩
  · have hms' : d.masterSideSecure = false := by simpa using hms
    simp [hms']

theorem free_pages_fields (d : SecDomain) (addr sz : Nat) :
    ((arm_smmu_free_pages_exact d addr sz)).masterSideSecure = d.masterSideSecure ∧
    ((arm_smmu_free_pages_exact d addr sz)).hasPgtblOps = d.hasPgtblOps ∧
    ((arm_smmu_free_pages_exact d addr sz)).unassignList = d.unassignList := by
  unfold arm_smmu_free_pages_exact
  by_cases hms : d.masterSideSecure = true
  · simp [hms, arm_smmu_secure_pool_add]
  · have hms' : d.masterSideSecure = false := by simpa using hms
    simp [hms']

theorem processPgEvents_fields : ∀ (es : List PgEvent) (d : SecDomain),
    (processPgEvents d es).masterSideSecure = d.masterSideSecure ∧
    (processPgEvents d es).hasPgtblOps = d.hasPgtblOps ∧
    (processPgEvents d es).unassignList = d.unassignList := by
  intro es
  induction es with
  | nil => intro d; simp [processPgEvents]
  | cons e rest ih =>
    intro d
    cases e with
    | allocPg sz fresh =>
      have h1 := ih (arm_smmu_alloc_pages_exact d sz fresh).1
      have h2 := alloc_pages_fields d sz fresh
      simp only [processPgEvents]
      exact ⟨h1.1.trans h2.1, h1.2.1.trans h2.2.1, h1.2.2.trans h2.2.2⟩
    | freePg a sz =>
      have h1 := ih (arm_smmu_free_pages_exact d a sz)
      have h2 := free_pages_fields d a sz
      simp only [processPgEvents]
      exact ⟨h1.1.trans h2.1, h1.2.1.trans h2.2.1, h1.2.2.trans h2.2.2⟩

theorem assignLoop_all_ok {hypRes : Nat → Int} : ∀ {l : List Nat},
    (∀ a ∈ l, hypRes a = 0) → assignLoop hypRes l = (0, l.map HypCall.assign) := by
  intro l
  induction l with
  | nil => intro _; rfl
  | cons a rest ih =>
    intro h
    have ha := h a (List.mem_cons_self a rest)
    simp [assignLoop, ha, ih (fun b hb => h b (List.mem_cons_of_mem a hb))]

/-- C3 counterexample: when the page-table op of a map call fails after
having allocated a page (status -ENOMEM here), `arm_smmu_map` returns
without draining, so the pending-assign list is NOT empty at return (and
no hypervisor assign call was made for the page). -/
theorem secure_map_failure_leaves_pending :
    ¬ ((arm_smmu_map (fun _ => 0) ⟨true, true, [], [], []⟩
        [PgEvent.allocPg 4096 100] (-12)).2.2.pteInfoList = []) := by
  decide

/-- C3 amended: for a master-side-secure attached domain whose pending
lists are empty at entry, every unmap call returns with both pending lists
empty; a map call whose page-table op succeeds returns with both lists
empty and (when the hypervisor accepts every page) issues exactly one
assign call per page placed on the pending-assign list during the call, in
list order; a map call whose page-table op fails returns with the freshly
recorded pages still pending (no drain). -/
theorem secure_drain_on_return (hypRes : Nat → Int) (d : SecDomain)
    (events : List PgEvent) (ur : Nat)
    (hms : d.masterSideSecure = true) (hops : d.hasPgtblOps = true)
    (hpte : d.pteInfoList = []) (hun : d.unassignList = []) :
    ((arm_smmu_unmap hypRes d events ur).2.2.pteInfoList = [] ∧
     (arm_smmu_unmap hypRes d events ur).2.2.unassignList = []) ∧
    ((arm_smmu_map hypRes d events 0).2.2.pteInfoList = [] ∧
     (arm_smmu_map hypRes d events 0).2.2.unassignList = []) ∧
    ((∀ a ∈ (processPgEvents d events).pteInfoList, hypRes a = 0) →
      (arm_smmu_map hypRes d events 0).2.1 =
        (processPgEvents d events).pteInfoList.map HypCall.assign) := by
  have hf := processPgEvents_fields events d
  have hms1 : (processPgEvents d events).masterSideSecure = true := hf.1.trans hms
  have hun1 : (processPgEvents d events).unassignList = [] := hf.2.2.trans hun
  refine ⟨?_, ?_, ?_⟩
  · unfold arm_smmu_unmap arm_smmu_assign_table arm_smmu_unassign_table
    simp only [hops, hms1, Bool.not_true, Bool.false_eq_true, if_false]
    by_cases hr : (assignLoop hypRes (processPgEvents d events).pteInfoList).1 ≠ 0 <;>
      simp [hr, hms1, hun1]
  · unfold arm_smmu_map arm_smmu_assign_table
    simp [hops, hms1, hun1]
  · intro hok
    unfold arm_smmu_map arm_smmu_assign_table
    simp [hops, hms1, assignLoop_all_ok hok]

/-- Witness for `secure_drain_on_return`: a secure domain, one fresh page
(address 100) allocated during the call; unmap drains, and map's drain
assigns page 100 exactly once. -/
theorem secure_drain_on_return_witness :
    (arm_smmu_unmap (fun _ => 0) ⟨true, true, [], [], []⟩
      [PgEvent.allocPg 4096 100] 4096).2.2.pteInfoList = [] ∧
    (arm_smmu_map (fun _ => 0) ⟨true, true, [], [], []⟩
      [PgEvent.allocPg 4096 100] 0).2.1 = [HypCall.assign 100] := by
  have h := secure_drain_on_return (fun _ => 0) ⟨true, true, [], [], []⟩
    [PgEvent.allocPg 4096 100] 4096 rfl rfl rfl rfl
  refine ⟨h.1.1, ?_⟩
  have h3 := h.2.2 (fun a _ => rfl)
  rw [h3]
  decide

/-- C10: map on a never-attached domain (no page-table ops installed)
fails with -ENODEV and changes nothing; unmap on the same domain returns
size 0, makes no hypervisor call and changes nothing. -/
theorem unattached_map_enodev_unmap_zero (hypRes : Nat → Int) (d : SecDomain)
    (events : List PgEvent) (st : Int) (ur : Nat)
    (h : d.hasPgtblOps = false) :
    arm_smmu_map hypRes d events st = (-ENODEV, [], d) ∧
    arm_smmu_unmap hypRes d events ur = (0, [], d) := by
  unfold arm_smmu_map arm_smmu_unmap
  simp [h]

/-- Witness for `unattached_map_enodev_unmap_zero` on a freshly allocated
domain. -/
theorem unattached_map_enodev_unmap_zero_witness :
    arm_smmu_map (fun _ => 0) ⟨false, false, [], [], []⟩ [] 0 =
      (-ENODEV, [], ⟨false, false, [], [], []⟩) ∧
    arm_smmu_unmap (fun _ => 0) ⟨false, false, [], [], []⟩ [] 0 =
      (0, [], ⟨false, false, [], [], []⟩) :=
  unattached_map_enodev_unmap_zero (fun _ => 0) ⟨false, false, [], [], []⟩ [] 0 0 rfl

/-! ## Fault handling and the ATS probe (C4, C5, C9)

Models `__arm_smmu_iova_to_phys_hard` (arm-smmu.c:2876),
`arm_smmu_verify_fault` (arm-smmu.c:1310) and `arm_smmu_context_fault`
(arm-smmu.c:1360). Hardware is abstracted by the per-attempt ATS outcome
(ATSR poll timeout, or the PAR value read) and by the values the code
reads from SCTLR / the implementation-defined control register; the
modelled observable is the value returned plus the ordered list of
context-bank register writes and the log messages. -/

inductive AtosOutcome
  | timeout
  | done (par : Nat)
deriving DecidableEq, Repr

inductive LogEv
  | atsTimeout
  | swWalkFallback
  | parFault
  | atosFirstFail
  | atosRetrySucceeded
  | atosStillFailed
deriving DecidableEq, Repr

inductive CbWrite
  | wFSR (v : Nat)
  | wRESUME (v : Nat)
  | wSCTLR (v : Nat)
  | wMMUCTRL (v : Nat)
  | wATS1PR (v : Nat)
  | wTLBIASID (v : Nat)
  | wTLBSYNC (v : Nat)
  | wTLBIVMID (v : Nat)
  | wSTLBGSYNC (v : Nat)
deriving DecidableEq, Repr

/-- `__arm_smmu_iova_to_phys_hard` (arm-smmu.c:2876): write the page-aligned
iova to ATS1PR, poll ATSR; a timeout logs and falls back (returning 0), a
PAR fault bit logs and returns 0, otherwise the PAR frame plus page offset
is returned. With do_halt the micro-control halt request brackets the
probe. Returns (phys, register writes, logs). -/
def __arm_smmu_iova_to_phys_hard (iova : Nat) (o : AtosOutcome) (doHalt : Bool)
    (mmuctrl : Nat) : Nat × List CbWrite × List LogEv :=
  let haltW : List CbWrite :=
    if doHalt then [CbWrite.wMMUCTRL (mmuctrl ||| MICRO_MMU_CTRL_LOCAL_HALT_REQ)] else []
  let resumeW : List CbWrite :=
    if doHalt then [CbWrite.wMMUCTRL ((mmuctrl ||| MICRO_MMU_CTRL_LOCAL_HALT_REQ) &&&
      (2 ^ 64 - 1 - MICRO_MMU_CTRL_LOCAL_HALT_REQ))] else []
  let atsW : List CbWrite := [CbWrite.wATS1PR (iova &&& (2 ^ 64 - 4096))]
  match o with
  | AtosOutcome.timeout =>
    (0, haltW ++ atsW ++ resumeW, [LogEv.atsTimeout, LogEv.swWalkFallback])
  | AtosOutcome.done par =>
    if par &&& CB_PAR_F ≠ 0 then (0, haltW ++ atsW ++ resumeW, [LogEv.parFault])
    else ((par &&& (PHYS_MASK &&& (2 ^ 64 - 4096))) ||| (iova % 4096),
      haltW ++ atsW ++ resumeW, [])

/-- `arm_smmu_tlb_inv_context` (arm-smmu.c:1130): stage-1 does an
ASID-scoped invalidate plus context-bank sync, stage-2 a VMID invalidate
plus global sync. -/
def arm_smmu_tlb_inv_context_writes (stage1 : Bool) (asid vmid : Nat) : List CbWrite :=
  if stage1 then [CbWrite.wTLBIASID asid, CbWrite.wTLBSYNC 0]
  else [CbWrite.wTLBIVMID vmid, CbWrite.wSTLBGSYNC 0]

/-- `arm_smmu_verify_fault` (arm-smmu.c:1310): halt, terminate the stalled
transaction, clear FSR so ATOS can log, drop the stall bit from SCTLR,
probe; on no translation log, force a TLB invalidation, retry exactly
once and log the second result; restore SCTLR and resume. Returns the
last probe's phys, the register writes and the logs. -/
def arm_smmu_verify_fault (iova fsr sctlr_orig mmuctrl asid vmid : Nat)
    (stage1 : Bool) (o1 o2 : AtosOutcome) : Nat × List CbWrite × List LogEv :=
  let pre : List CbWrite :=
    [CbWrite.wMMUCTRL (mmuctrl ||| MICRO_MMU_CTRL_LOCAL_HALT_REQ),
     CbWrite.wRESUME RESUME_TERMINATE,
     CbWrite.wFSR fsr,
     CbWrite.wSCTLR (sctlr_orig &&& (2 ^ 64 - 1 - SCTLR_CFCFG))]
  let post : List CbWrite :=
    [CbWrite.wSCTLR sctlr_orig,
     CbWrite.wMMUCTRL ((mmuctrl ||| MICRO_MMU_CTRL_LOCAL_HALT_REQ) &&&
       (2 ^ 64 - 1 - MICRO_MMU_CTRL_LOCAL_HALT_REQ))]
  let p1 := __arm_smmu_iova_to_phys_hard iova o1 false mmuctrl
  if p1.1 = 0 then
    let p2 := __arm_smmu_iova_to_phys_hard iova o2 false mmuctrl
    (p2.1,
     pre ++ p1.2.1 ++ arm_smmu_tlb_inv_context_writes stage1 asid vmid ++ p2.2.1 ++ post,
     p1.2.2 ++ [LogEv.atosFirstFail] ++ p2.2.2 ++
       [if p2.1 ≠ 0 then LogEv.atosRetrySucceeded else LogEv.atosStillFailed])
  else (p1.1, pre ++ p1.2.1 ++ post, p1.2.2)

inductive IrqReturn
  | IRQ_NONE
  | IRQ_HANDLED
deriving DecidableEq, Repr

/-- Outcome of the threaded context-fault handler: either the BUG() paths
(system halt) or an IRQ return value; both carry the register writes made
up to that point. -/
inductive FaultOutcome
  | panic (writes : List CbWrite)
  | done (ret : IrqReturn) (writes : List CbWrite)
deriving DecidableEq, Repr

def outWrites : FaultOutcome → List CbWrite
  | FaultOutcome.panic ws => ws
  | FaultOutcome.done _ ws => ws

/-- The tail of `arm_smmu_context_fault` (arm-smmu.c:1501-1517): unless
the callback returned -EBUSY, clear FSR by writing back the read value,
then, if the read value had the stall bit, write RESUME (with the
tlb-sync errata workaround first when configured). -/
def faultEpilogue (tmp : Int) (fsr : Nat) (ctxHangErrata : Bool) (ret : IrqReturn)
    (pre : List CbWrite) : FaultOutcome :=
  if tmp ≠ -EBUSY then
    FaultOutcome.done ret (pre ++ [CbWrite.wFSR fsr] ++
      (if fsr &&& FSR_SS ≠ 0 then
        (if ctxHangErrata then [CbWrite.wTLBSYNC 0] else []) ++
          [CbWrite.wRESUME RESUME_TERMINATE]
       else []))
  else FaultOutcome.done ret pre

/-- `arm_smmu_context_fault` (arm-smmu.c:1360): `fsr` is the FSR value
read, `tmp` the owner callback's result. No fault bit: IRQ_NONE with no
write. A fatal address-size fault BUGs. A 0 or -EBUSY result is handled;
anything else runs the verify-fault ATS probe and then either BUGs
(fatal domain) or proceeds to the clear/resume epilogue. -/
def arm_smmu_context_fault (fsr : Nat) (tmp : Int)
    (nonFatal fatalAsf ctxHangErrata : Bool)
    (iova sctlr_orig mmuctrl asid vmid : Nat) (stage1 : Bool)
    (o1 o2 : AtosOutcome) : FaultOutcome :=
  if fsr &&& FSR_FAULT = 0 then FaultOutcome.done IrqReturn.IRQ_NONE []
  else if fatalAsf = true ∧ fsr &&& FSR_ASF ≠ 0 then FaultOutcome.panic []
  else if tmp = 0 ∨ tmp = -EBUSY then
    faultEpilogue tmp fsr ctxHangErrata IrqReturn.IRQ_HANDLED []
  else
    let v := arm_smmu_verify_fault iova fsr sctlr_orig mmuctrl asid vmid stage1 o1 o2
    if nonFatal then faultEpilogue tmp fsr ctxHangErrata IrqReturn.IRQ_NONE v.2.1
    else FaultOutcome.panic v.2.1

/-- The FSR values written along a write trace, in order. -/
def fsrWrites : List CbWrite → List Nat
  | [] => []
  | CbWrite.wFSR v :: ws => v :: fsrWrites ws
  | _ :: ws => fsrWrites ws

/-- The RESUME values written along a write trace, in order. -/
def resumeWritesOf : List CbWrite → List Nat
  | [] => []
  | CbWrite.wRESUME v :: ws => v :: resumeWritesOf ws
  | _ :: ws => resumeWritesOf ws

/-- Number of ATS1PR writes (= hardware probe attempts) in a trace. -/
def atsProbeCount : List CbWrite → Nat
  | [] => 0
  | CbWrite.wATS1PR _ :: ws => atsProbeCount ws + 1
  | _ :: ws => atsProbeCount ws

/-- Number of TLB-invalidation writes (ASID- or VMID-scoped) in a trace. -/
def tlbInvCount : List CbWrite → Nat
  | [] => 0
  | CbWrite.wTLBIASID _ :: ws => tlbInvCount ws + 1
  | CbWrite.wTLBIVMID _ :: ws => tlbInvCount ws + 1
  | _ :: ws => tlbInvCount ws

theorem fsrWrites_append (a b : List CbWrite) :
    fsrWrites (a ++ b) = fsrWrites a ++ fsrWrites b := by
  induction a with
  | nil => rfl
  | cons w ws ih => cases w <;> simp [fsrWrites, ih]

theorem resumeWritesOf_append (a b : List CbWrite) :
    resumeWritesOf (a ++ b) = resumeWritesOf a ++ resumeWritesOf b := by
  induction a with
  | nil => rfl
  | cons w ws ih => cases w <;> simp [resumeWritesOf, ih]

theorem atsProbeCount_append (a b : List CbWrite) :
    atsProbeCount (a ++ b) = atsProbeCount a + atsProbeCount b := by
  induction a with
  | nil => simp [atsProbeCount]
  | cons w ws ih => cases w <;> simp [atsProbeCount, ih] <;> omega

theorem tlbInvCount_append (a b : List CbWrite) :
    tlbInvCount (a ++ b) = tlbInvCount a + tlbInvCount b := by
  induction a with
  | nil => simp [tlbInvCount]
  | cons w ws ih => cases w <;> simp [tlbInvCount, ih] <;> omega

theorem iova_to_phys_hard_no_halt_writes (iova m : Nat) (o : AtosOutcome) :
    (__arm_smmu_iova_to_phys_hard iova o false m).2.1 =
      [CbWrite.wATS1PR (iova &&& (2 ^ 64 - 4096))] := by
  cases o with
  | timeout => rfl
  | done par =>
    unfold __arm_smmu_iova_to_phys_hard
    by_cases hp : par &&& CB_PAR_F ≠ 0 <;> simp [hp]

theorem iova_to_phys_hard_timeout_val (iova m : Nat) (dh : Bool) :
    (__arm_smmu_iova_to_phys_hard iova AtosOutcome.timeout dh m).1 = 0 := by
  cases dh <;> rfl

theorem iova_to_phys_hard_timeout_logs (iova m : Nat) (dh : Bool) :
    (__arm_smmu_iova_to_phys_hard iova AtosOutcome.timeout dh m).2.2 =
      [LogEv.atsTimeout, LogEv.swWalkFallback] := by
  cases dh <;> rfl

theorem verify_fault_fsr_resume (iova fsr sctlr_orig mmuctrl asid vmid : Nat)
    (stage1 : Bool) (o1 o2 : AtosOutcome) :
    fsrWrites (arm_smmu_verify_fault iova fsr sctlr_orig mmuctrl asid vmid
      stage1 o1 o2).2.1 = [fsr] ∧
    resumeWritesOf (arm_smmu_verify_fault iova fsr sctlr_orig mmuctrl asid vmid
      stage1 o1 o2).2.1 = [RESUME_TERMINATE] := by
  unfold arm_smmu_verify_fault
  by_cases h1 : (__arm_smmu_iova_to_phys_hard iova o1 false mmuctrl).1 = 0 <;>
    cases stage1 <;>
      simp [h1, iova_to_phys_hard_no_halt_writes, arm_smmu_tlb_inv_context_writes,
        fsrWrites, resumeWritesOf]

/-- C4 amended: with a fault bit set and no fatal address-size fault, the
context-fault handler behaves as follows. A -EBUSY ("busy") callback
result makes no register write at all. A 0 (success) result writes FSR
exactly once, bit-identical to the value read, and only afterwards — and
only when the stall bit was set in that value — writes RESUME(terminate).
Any other result first runs the diagnostic ATS probe, which itself writes
RESUME(terminate) unconditionally and clears FSR once; on a non-fatal
domain the handler then clears FSR a second time (so FSR is written twice,
both times bit-identical) before the conditional RESUME write, and on a
fatal domain it BUGs right after the probe. The claim's "exactly once /
RESUME only after and only when stalled" therefore holds for the success
result but not for other unhandled results. -/
theorem context_fault_fsr_resume_protocol (fsr : Nat) (tmp : Int)
    (nonFatal fatalAsf ctxHangErrata : Bool)
    (iova sctlr_orig mmuctrl asid vmid : Nat) (stage1 : Bool) (o1 o2 : AtosOutcome)
    (hf : fsr &&& FSR_FAULT ≠ 0)
    (hasf : ¬ (fatalAsf = true ∧ fsr &&& FSR_ASF ≠ 0)) :
    (tmp = -EBUSY →
      arm_smmu_context_fault fsr tmp nonFatal fatalAsf ctxHangErrata iova
        sctlr_orig mmuctrl asid vmid stage1 o1 o2 =
        FaultOutcome.done IrqReturn.IRQ_HANDLED []) ∧
    (tmp = 0 →
      arm_smmu_context_fault fsr tmp nonFatal fatalAsf ctxHangErrata iova
        sctlr_orig mmuctrl asid vmid stage1 o1 o2 =
        FaultOutcome.done IrqReturn.IRQ_HANDLED
          ([CbWrite.wFSR fsr] ++
            (if fsr &&& FSR_SS ≠ 0 then
              (if ctxHangErrata then [CbWrite.wTLBSYNC 0] else []) ++
                [CbWrite.wRESUME RESUME_TERMINATE]
             else []))) ∧
    (tmp ≠ 0 → tmp ≠ -EBUSY → nonFatal = true →
      fsrWrites (outWrites (arm_smmu_context_fault fsr tmp nonFatal fatalAsf
        ctxHangErrata iova sctlr_orig mmuctrl asid vmid stage1 o1 o2)) = [fsr, fsr] ∧
      resumeWritesOf (outWrites (arm_smmu_context_fault fsr tmp nonFatal fatalAsf
        ctxHangErrata iova sctlr_orig mmuctrl asid vmid stage1 o1 o2)) =
        RESUME_TERMINATE :: (if fsr &&& FSR_SS ≠ 0 then [RESUME_TERMINATE] else [])) ∧
    (tmp ≠ 0 → tmp ≠ -EBUSY → nonFatal = false →
      arm_smmu_context_fault fsr tmp nonFatal fatalAsf ctxHangErrata iova
        sctlr_orig mmuctrl asid vmid stage1 o1 o2 =
        FaultOutcome.panic (arm_smmu_verify_fault iova fsr sctlr_orig mmuctrl
          asid vmid stage1 o1 o2).2.1) := by
  refine ⟨?_, ?_, ?_, ?_⟩
  · intro hb
    subst hb
    simp [arm_smmu_context_fault, hf, hasf, faultEpilogue]
  · intro h0
    subst h0
    simp [arm_smmu_context_fault, hf, hasf, faultEpilogue, EBUSY]
  · intro h0 hb hnf
    have hor : ¬ (tmp = 0 ∨ tmp = -EBUSY) := by rintro (h | h) <;> contradiction
    have hv := verify_fault_fsr_resume iova fsr sctlr_orig mmuctrl asid vmid
      stage1 o1 o2
    have hred : arm_smmu_context_fault fsr tmp nonFatal fatalAsf ctxHangErrata
        iova sctlr_orig mmuctrl asid vmid stage1 o1 o2 =
        FaultOutcome.done IrqReturn.IRQ_NONE
          ((arm_smmu_verify_fault iova fsr sctlr_orig mmuctrl asid vmid stage1
            o1 o2).2.1 ++ [CbWrite.wFSR fsr] ++
            (if fsr &&& FSR_SS ≠ 0 then
              (if ctxHangErrata then [CbWrite.wTLBSYNC 0] else []) ++
                [CbWrite.wRESUME RESUME_TERMINATE]
             else [])) := by
      simp [arm_smmu_context_fault, hf, hasf, hor, hnf, faultEpilogue, hb, h0]
    rw [hred]
    simp only [outWrites]
    by_cases hss : fsr &&& FSR_SS ≠ 0 <;> cases ctxHangErrata <;>
      simp [hss, fsrWrites_append, resumeWritesOf_append, hv.1, hv.2,
        fsrWrites, resumeWritesOf]
  · intro h0 hb hnf
    have hor : ¬ (tmp = 0 ∨ tmp = -EBUSY) := by rintro (h | h) <;> contradiction
    simp [arm_smmu_context_fault, hf, hasf, hor, hnf]

/-- C4 counterexample: an unhandled callback result (-EINVAL) on a
non-fatal domain, fault value FSR_TF (stall bit clear): the handler writes
FSR twice (once in the ATS probe, once in the final clear) and writes
RESUME although the stall bit was clear — the claim's "exactly once" and
"only when the stall bit was set" are both false here. -/
theorem context_fault_claim_counterexample :
    ¬ ((fsrWrites (outWrites (arm_smmu_context_fault FSR_TF (-22) true false false
          0 0 0 1 2 true (AtosOutcome.done 1) (AtosOutcome.done 1))) = [FSR_TF]) ∧
       (FSR_TF &&& FSR_SS = 0 →
         resumeWritesOf (outWrites (arm_smmu_context_fault FSR_TF (-22) true false
           false 0 0 0 1 2 true (AtosOutcome.done 1) (AtosOutcome.done 1))) = [])) := by
  decide

/-- Witness for `context_fault_fsr_resume_protocol`: a translation fault
with a busy callback result makes no register write. -/
theorem context_fault_protocol_witness :
    arm_smmu_context_fault FSR_TF (-16) true false false 0 0 0 1 2 true
      (AtosOutcome.done 1) (AtosOutcome.done 1) =
      FaultOutcome.done IrqReturn.IRQ_HANDLED [] :=
  (context_fault_fsr_resume_protocol FSR_TF (-16) true false false 0 0 0 1 2 true
    (AtosOutcome.done 1) (AtosOutcome.done 1) (by decide) (by decide)).1 rfl

/-- C5 amended: only a -EBUSY ("busy") callback result leaves the fault
outstanding: the handler then neither clears the fault-status register
nor writes RESUME (no register write at all), leaving both to the owner.
(A success result, contrary to the claim, does clear FSR and conditionally
terminates — see the counterexample.) -/
theorem busy_callback_leaves_fault_outstanding (fsr : Nat) (tmp : Int)
    (nonFatal fatalAsf ctxHangErrata : Bool)
    (iova sctlr_orig mmuctrl asid vmid : Nat) (stage1 : Bool) (o1 o2 : AtosOutcome)
    (hf : fsr &&& FSR_FAULT ≠ 0)
    (hasf : ¬ (fatalAsf = true ∧ fsr &&& FSR_ASF ≠ 0))
    (hbusy : tmp = -EBUSY) :
    arm_smmu_context_fault fsr tmp nonFatal fatalAsf ctxHangErrata iova
      sctlr_orig mmuctrl asid vmid stage1 o1 o2 =
      FaultOutcome.done IrqReturn.IRQ_HANDLED [] := by
  subst hbusy
  simp [arm_smmu_context_fault, hf, hasf, faultEpilogue]

/-- C5 counterexample: a success (0) callback result on a stalled fault
(FSR_TF with the stall bit set) DOES clear FSR and DOES write RESUME, so
"success or busy → no clear, no resume" is false for the success result. -/
theorem success_callback_clears_fsr_counterexample :
    ¬ (fsrWrites (outWrites (arm_smmu_context_fault (FSR_TF ||| FSR_SS) 0 true
          false false 0 0 0 1 2 true (AtosOutcome.done 0) (AtosOutcome.done 0))) = [] ∧
       resumeWritesOf (outWrites (arm_smmu_context_fault (FSR_TF ||| FSR_SS) 0 true
          false false 0 0 0 1 2 true (AtosOutcome.done 0) (AtosOutcome.done 0))) = []) := by
  decide

/-- Witness for `busy_callback_leaves_fault_outstanding` at a permission
fault. -/
theorem busy_callback_witness :
    arm_smmu_context_fault FSR_PF (-16) false false true 0 0 0 3 4 false
      (AtosOutcome.timeout) (AtosOutcome.timeout) =
      FaultOutcome.done IrqReturn.IRQ_HANDLED [] :=
  busy_callback_leaves_fault_outstanding FSR_PF (-16) false false true 0 0 0 3 4
    false AtosOutcome.timeout AtosOutcome.timeout (by decide) (by decide) rfl

/-- C9: in `arm_smmu_verify_fault`, a first probe that yields no
translation triggers exactly one forced TLB invalidation and exactly one
retry, and the returned value is the second attempt's result; a first
probe that resolves is returned directly with no invalidation and no
retry; when both attempts fail, both failures are logged; and a probe
whose ATSR poll times out returns 0 ("no translation") after logging. -/
theorem ats_probe_retry_once (iova fsr sctlr_orig mmuctrl asid vmid : Nat)
    (stage1 : Bool) (o1 o2 : AtosOutcome) :
    (arm_smmu_verify_fault iova fsr sctlr_orig mmuctrl asid vmid stage1 o1 o2).1 =
      (if (__arm_smmu_iova_to_phys_hard iova o1 false mmuctrl).1 = 0 then
        (__arm_smmu_iova_to_phys_hard iova o2 false mmuctrl).1
       else (__arm_smmu_iova_to_phys_hard iova o1 false mmuctrl).1) ∧
    atsProbeCount (arm_smmu_verify_fault iova fsr sctlr_orig mmuctrl asid vmid
      stage1 o1 o2).2.1 =
      (if (__arm_smmu_iova_to_phys_hard iova o1 false mmuctrl).1 = 0 then 2 else 1) ∧
    tlbInvCount (arm_smmu_verify_fault iova fsr sctlr_orig mmuctrl asid vmid
      stage1 o1 o2).2.1 =
      (if (__arm_smmu_iova_to_phys_hard iova o1 false mmuctrl).1 = 0 then 1 else 0) ∧
    ((__arm_smmu_iova_to_phys_hard iova o1 false mmuctrl).1 = 0 →
     (__arm_smmu_iova_to_phys_hard iova o2 false mmuctrl).1 = 0 →
      LogEv.atosFirstFail ∈ (arm_smmu_verify_fault iova fsr sctlr_orig mmuctrl
        asid vmid stage1 o1 o2).2.2 ∧
      LogEv.atosStillFailed ∈ (arm_smmu_verify_fault iova fsr sctlr_orig mmuctrl
        asid vmid stage1 o1 o2).2.2) ∧
    (__arm_smmu_iova_to_phys_hard iova AtosOutcome.timeout false mmuctrl).1 = 0 ∧
    (__arm_smmu_iova_to_phys_hard iova AtosOutcome.timeout false mmuctrl).2.2 =
      [LogEv.atsTimeout, LogEv.swWalkFallback] := by
  have hw1 := iova_to_phys_hard_no_halt_writes iova mmuctrl o1
  have hw2 := iova_to_phys_hard_no_halt_writes iova mmuctrl o2
  refine ⟨?_, ?_, ?_, ?_, iova_to_phys_hard_timeout_val iova mmuctrl false,
    iova_to_phys_hard_timeout_logs iova mmuctrl false⟩
  · by_cases h1 : (__arm_smmu_iova_to_phys_hard iova o1 false mmuctrl).1 = 0 <;>
      simp [arm_smmu_verify_fault, h1]
  · by_cases h1 : (__arm_smmu_iova_to_phys_hard iova o1 false mmuctrl).1 = 0 <;>
      cases stage1 <;>
        simp [arm_smmu_verify_fault, h1, hw1, hw2, arm_smmu_tlb_inv_context_writes,
          atsProbeCount_append, atsProbeCount]
  · by_cases h1 : (__arm_smmu_iova_to_phys_hard iova o1 false mmuctrl).1 = 0 <;>
      cases stage1 <;>
        simp [arm_smmu_verify_fault, h1, hw1, hw2, arm_smmu_tlb_inv_context_writes,
          tlbInvCount_append, tlbInvCount]
  · intro h1 h2
    simp [arm_smmu_verify_fault, h1, h2]

/-! ## Power/clock gate (C6, C7)

Models `arm_smmu_enable_regulators` / `arm_smmu_disable_regulators`
(arm-smmu.c:956-1022), the atomic clock pair (arm-smmu.c:1045-1085) and
their composition `arm_smmu_enable_clocks` / `arm_smmu_disable_clocks`
(arm-smmu.c:1024-1042), on the success path (regulator, bus and clock
calls succeed); the gdsc regulator and a bus client are present. -/

inductive HwEvent
  | railOn
  | railOff
  | busVoteOn
  | busVoteOff
  | clkPrep (i : Nat)
  | clkUnprep (i : Nat)
deriving DecidableEq, Repr

/-- The inverse hardware action of each bring-up/teardown action. -/
def invEvent : HwEvent → HwEvent
  | HwEvent.railOn => HwEvent.railOff
  | HwEvent.railOff => HwEvent.railOn
  | HwEvent.busVoteOn => HwEvent.busVoteOff
  | HwEvent.busVoteOff => HwEvent.busVoteOn
  | HwEvent.clkPrep i => HwEvent.clkUnprep i
  | HwEvent.clkUnprep i => HwEvent.clkPrep i

structure PowerState where
  power_count : Nat
  railOn : Bool
  busOn : Bool
  prepared : Bool
deriving DecidableEq, Repr

/-- `arm_smmu_enable_regulators` (arm-smmu.c:985), success path: a 0→1
transition turns on the rail, votes the bus and prepares every clock in
registration order; otherwise only the count moves. Returns the new
state, the hardware actions performed, and the return code. -/
def arm_smmu_enable_regulators (n : Nat) (st : PowerState) :
    PowerState × List HwEvent × Int :=
  if st.power_count ≠ 0 then
    ({ st with power_count := st.power_count + 1 }, [], 0)
  else
    (⟨1, true, true, true⟩,
     [HwEvent.railOn, HwEvent.busVoteOn] ++ (List.range n).map HwEvent.clkPrep, 0)

/-- `arm_smmu_disable_regulators` (arm-smmu.c:956): a release with no
matching acquire warns and returns -EINVAL leaving everything unchanged;
a 1→0 transition unprepares the clocks in reverse order, drops the bus
vote and disables the rail. The Bool is the WARN. -/
def arm_smmu_disable_regulators (n : Nat) (st : PowerState) :
    PowerState × List HwEvent × Int × Bool :=
  if st.power_count = 0 then (st, [], -EINVAL, true)
  else if st.power_count > 1 then
    ({ st with power_count := st.power_count - 1 }, [], 0, false)
  else
    (⟨0, false, false, false⟩,
     ((List.range n).reverse.map HwEvent.clkUnprep) ++
       [HwEvent.busVoteOff, HwEvent.railOff], 0, false)

def applyEnableN (n : Nat) : Nat → PowerState → PowerState
  | 0, st => st
  | k + 1, st => applyEnableN n k (arm_smmu_enable_regulators n st).1

def applyDisableN (n : Nat) : Nat → PowerState → PowerState
  | 0, st => st
  | k + 1, st => applyDisableN n k (arm_smmu_disable_regulators n st).1

theorem applyEnableN_from_on (n : Nat) : ∀ (j k : Nat), 1 ≤ k →
    applyEnableN n j ⟨k, true, true, true⟩ = ⟨k + j, true, true, true⟩ := by
  intro j
  induction j with
  | zero => intro k _; rfl
  | succ m ih =>
    intro k hk
    have hk0 : k ≠ 0 := by omega
    have hstep : (arm_smmu_enable_regulators n ⟨k, true, true, true⟩).1 =
        ⟨k + 1, true, true, true⟩ := by
      unfold arm_smmu_enable_regulators
      simp [hk0]
    simp only [applyEnableN, hstep]
    rw [ih (k + 1) (by omega)]
    congr 1
    omega

theorem applyDisableN_to_off (n : Nat) : ∀ (k : Nat), 1 ≤ k →
    applyDisableN n k ⟨k, true, true, true⟩ = ⟨0, false, false, false⟩ := by
  intro k
  induction k with
  | zero => intro h; omega
  | succ m ih =>
    intro _
    by_cases hm : m = 0
    · subst hm
      simp [applyDisableN, arm_smmu_disable_regulators]
    · have hstep : (arm_smmu_disable_regulators n ⟨m + 1, true, true, true⟩).1 =
          ⟨m, true, true, true⟩ := by
        unfold arm_smmu_disable_regulators
        have h0 : ¬ ((⟨m + 1, true, true, true⟩ : PowerState).power_count = 0) := by
          simp
        have h1 : (⟨m + 1, true, true, true⟩ : PowerState).power_count > 1 := by
          simp
          omega
        rw [if_neg h0, if_pos h1]
        simp
      simp only [applyDisableN, hstep]
      exact ih (by omega)

/-- C6: from the gate-off state, N acquires followed by N releases restore
the regulator, bus-vote and clock-prepare state exactly; the 1→0 release
performs, action for action, the reverse of the inverses of the 0→1
bring-up sequence; and a release with no matching acquire warns, returns
-EINVAL, and leaves both the reference count and the hardware untouched. -/
theorem power_gate_balanced (n N : Nat) (st : PowerState)
    (hoff : st = ⟨0, false, false, false⟩) :
    applyDisableN n N (applyEnableN n N st) = st ∧
    (arm_smmu_disable_regulators n ⟨1, true, true, true⟩).2.1 =
      ((arm_smmu_enable_regulators n ⟨0, false, false, false⟩).2.1.map invEvent).reverse ∧
    (arm_smmu_disable_regulators n st).1 = st ∧
    (arm_smmu_disable_regulators n st).2.2.1 = -EINVAL ∧
    (arm_smmu_disable_regulators n st).2.2.2 = true := by
  subst hoff
  refine ⟨?_, ?_, ?_, ?_, ?_⟩
  · cases N with
    | zero => rfl
    | succ m =>
      have hfirst : (arm_smmu_enable_regulators n ⟨0, false, false, false⟩).1 =
          ⟨1, true, true, true⟩ := by
        simp [arm_smmu_enable_regulators]
      simp only [applyEnableN, hfirst]
      rw [applyEnableN_from_on n m 1 (by omega), Nat.add_comm 1 m]
      exact applyDisableN_to_off n (m + 1) (by omega)
  · simp [arm_smmu_disable_regulators, arm_smmu_enable_regulators, invEvent,
      List.map_append, List.map_map, List.map_reverse, Function.comp]
  · simp [arm_smmu_disable_regulators]
  · simp [arm_smmu_disable_regulators]
  · simp [arm_smmu_disable_regulators]

/-- Witness for `power_gate_balanced` with 2 clocks and N = 3. -/
theorem power_gate_balanced_witness :
    applyDisableN 2 3 (applyEnableN 2 3 ⟨0, false, false, false⟩) =
      (⟨0, false, false, false⟩ : PowerState) ∧
    (arm_smmu_disable_regulators 2 ⟨0, false, false, false⟩).2.2.1 = -EINVAL :=
  ⟨(power_gate_balanced 2 3 ⟨0, false, false, false⟩ rfl).1,
   (power_gate_balanced 2 3 ⟨0, false, false, false⟩ rfl).2.2.2.1⟩

/-! ## Attach count vs power state (C7)

Models the power-relevant effects of `arm_smmu_attach_dev`
(arm-smmu.c:2313, success path for a non-dynamic, non-atomic,
non-static-cb domain), `arm_smmu_detach_dev` (arm-smmu.c:2468, whose
`arm_smmu_destroy_domain_context` brackets its register write with the
clock gate) and `arm_smmu_power_off` (arm-smmu.c:2437). -/

structure SmmuPm where
  attach_count : Nat
  power : PowerState
  clock_refs_count : Nat
  clocksOn : Bool
  registerSave : Bool
deriving DecidableEq, Repr

/-- `arm_smmu_enable_clocks_atomic` (arm-smmu.c:1045), success path. -/
def arm_smmu_enable_clocks_atomic (st : SmmuPm) : SmmuPm :=
  if st.clock_refs_count > 0 then
    { st with clock_refs_count := st.clock_refs_count + 1 }
  else { st with clock_refs_count := 1, clocksOn := true }

/-- `arm_smmu_disable_clocks_atomic` (arm-smmu.c:1071). -/
def arm_smmu_disable_clocks_atomic (st : SmmuPm) : SmmuPm :=
  if st.clock_refs_count > 1 then
    { st with clock_refs_count := st.clock_refs_count - 1 }
  else { st with clock_refs_count := 0, clocksOn := false }

/-- `arm_smmu_enable_clocks` (arm-smmu.c:1024): regulators then clocks. -/
def arm_smmu_enable_clocks (n : Nat) (st : SmmuPm) : SmmuPm :=
  arm_smmu_enable_clocks_atomic
    { st with power := (arm_smmu_enable_regulators n st.power).1 }

/-- `arm_smmu_disable_clocks` (arm-smmu.c:1038): clocks then regulators. -/
def arm_smmu_disable_clocks (n : Nat) (st : SmmuPm) : SmmuPm :=
  let st1 := arm_smmu_disable_clocks_atomic st
  { st1 with power := (arm_smmu_disable_regulators n st1.power).1 }

/-- `arm_smmu_power_off` (arm-smmu.c:2437): a clock-gated sCR0 write, then
(without the register-save option) the attach-time regulator vote is
dropped. -/
def arm_smmu_power_off_pm (n : Nat) (st : SmmuPm) : SmmuPm :=
  let st1 := arm_smmu_disable_clocks n (arm_smmu_enable_clocks n st)
  if !st1.registerSave then
    { st1 with power := (arm_smmu_disable_regulators n st1.power).1 }
  else st1

/-- `arm_smmu_attach_dev` (arm-smmu.c:2313), success path: the first
attach takes an extra regulator vote (unless the register-save option
retains state across power collapse), powers the clocks for the reset and
context programming, bumps the attach count, and releases the clocks. -/
def arm_smmu_attach_dev_pm (n : Nat) (st : SmmuPm) : SmmuPm :=
  let st1 :=
    if st.attach_count = 0 then
      let st0 :=
        if !st.registerSave then
          { st with power := (arm_smmu_enable_regulators n st.power).1 }
        else st
      arm_smmu_enable_clocks n st0
    else arm_smmu_enable_clocks n st
  let st2 := { st1 with attach_count := st1.attach_count + 1 }
  arm_smmu_disable_clocks n st2

/-- `arm_smmu_detach_dev` (arm-smmu.c:2468), success path: the destroy of
the domain context runs under the clock gate, the attach count drops, and
the last detach powers the device off. -/
def arm_smmu_detach_dev_pm (n : Nat) (st : SmmuPm) : SmmuPm :=
  let st1 := arm_smmu_disable_clocks n (arm_smmu_enable_clocks n st)
  let st2 := { st1 with attach_count := st1.attach_count - 1 }
  if st2.attach_count = 0 then arm_smmu_power_off_pm n st2 else st2

inductive PmOp
  | attach
  | detach
deriving DecidableEq, Repr

/-- Run a sequence of completed attach/detach operations; a detach without
a live attachment does not occur in the driver (each detach matches an
earlier successful attach). -/
def runPmOps (n : Nat) : List PmOp → SmmuPm → SmmuPm
  | [], st => st
  | PmOp.attach :: rest, st => runPmOps n rest (arm_smmu_attach_dev_pm n st)
  | PmOp.detach :: rest, st =>
    if st.attach_count = 0 then runPmOps n rest st
    else runPmOps n rest (arm_smmu_detach_dev_pm n st)

/-- The freshly probed device: nothing attached, gate off. -/
def initPm (registerSave : Bool) : SmmuPm :=
  ⟨0, ⟨0, false, false, false⟩, 0, false, registerSave⟩

/-- C7 counterexample: on a device with the register-save option, after
one completed attach the attach count is 1 but the rail is off and the
clocks are disabled — "attach count > 0 iff powered and clocked" is
false. (Without that option the clocks are still disabled outside
register-access sections, so the "and clocked" half fails there too.) -/
theorem attach_powered_iff_counterexample :
    ¬ (0 < (runPmOps 2 [PmOp.attach] (initPm true)).attach_count ↔
        ((runPmOps 2 [PmOp.attach] (initPm true)).power.railOn = true ∧
         (runPmOps 2 [PmOp.attach] (initPm true)).power.busOn = true ∧
         (runPmOps 2 [PmOp.attach] (initPm true)).power.prepared = true ∧
         (runPmOps 2 [PmOp.attach] (initPm true)).clocksOn = true)) := by
  decide

/-- The only states reachable between operations on a non-register-save
device: attach_count attachments, one power vote held iff some domain is
attached, clocks released. -/
def canonicalPm (a : Nat) : SmmuPm :=
  ⟨a, if a = 0 then ⟨0, false, false, false⟩ else ⟨1, true, true, true⟩, 0, false, false⟩

theorem attach_canonical (n a : Nat) :
    arm_smmu_attach_dev_pm n (canonicalPm a) = canonicalPm (a + 1) := by
  cases a <;> rfl

theorem detach_canonical (n a : Nat) (h : a ≠ 0) :
    arm_smmu_detach_dev_pm n (canonicalPm a) = canonicalPm (a - 1) := by
  cases a with
  | zero => exact absurd rfl h
  | succ k => cases k <;> rfl

theorem runPmOps_canonical (n : Nat) : ∀ (ops : List PmOp) (a : Nat),
    ∃ b, runPmOps n ops (canonicalPm a) = canonicalPm b := by
  intro ops
  induction ops with
  | nil => intro a; exact ⟨a, rfl⟩
  | cons op rest ih =>
    intro a
    cases op with
    | attach =>
      rw [runPmOps, attach_canonical]
      exact ih (a + 1)
    | detach =>
      by_cases ha : a = 0
      · subst ha
        have hcond : (canonicalPm 0).attach_count = 0 := rfl
        rw [runPmOps, if_pos hcond]
        exact ih 0
      · have hcond : ¬ ((canonicalPm a).attach_count = 0) := fun h => ha h
        rw [runPmOps, if_neg hcond, detach_canonical n a ha]
        exact ih (a - 1)

/-- C7 amended: on a device without the register-save option, between
operations (after any sequence of completed attach/detach calls from the
probed state) the attach reference count is positive iff the regulator /
bus-vote / clock-prepare vote is held (rail on, bus voted, clocks
prepared); the clocks themselves are enabled only inside register-access
sections, so the clock reference count is 0 and the clocks are off here.
The unqualified claim — powered AND clocked iff attached — is refuted by
`attach_powered_iff_counterexample`. -/
theorem attach_count_power_vote (n : Nat) (ops : List PmOp) :
    (0 < (runPmOps n ops (initPm false)).attach_count ↔
      0 < (runPmOps n ops (initPm false)).power.power_count) ∧
    ((runPmOps n ops (initPm false)).power.railOn = true ↔
      0 < (runPmOps n ops (initPm false)).attach_count) ∧
    ((runPmOps n ops (initPm false)).power.busOn = true ↔
      0 < (runPmOps n ops (initPm false)).attach_count) ∧
    ((runPmOps n ops (initPm false)).power.prepared = true ↔
      0 < (runPmOps n ops (initPm false)).attach_count) ∧
    (runPmOps n ops (initPm false)).clock_refs_count = 0 ∧
    (runPmOps n ops (initPm false)).clocksOn = false := by
  have hinit : initPm false = canonicalPm 0 := rfl
  rw [hinit]
  obtain ⟨b, hb⟩ := runPmOps_canonical n ops 0
  rw [hb]
  cases b <;> simp [canonicalPm]

/-! ## Suspend/resume register snapshot (C8)

Models `arm_smmu_pm_suspend` / `arm_smmu_pm_resume`
(arm-smmu.c:4319-4431). The volatile hardware register view is a
`RegFile`; suspend reads a fixed ordered tuple per context bank plus the
per-group stream registers and sCR0 into flat buffers, and resume replays
them as an ordered write list (then TLB invalidate-all plus sync). -/

structure CBRegs where
  sctlr : Nat
  actlr : Nat
  ttbcr2 : Nat
  ttbr0 : Nat
  ttbr1 : Nat
  ttbcr : Nat
  contextidr : Nat
  mair0 : Nat
  mair1 : Nat
  cba2r : Nat
  cbar : Nat
deriving DecidableEq, Repr

@[ext]
structure RegFile where
  cb : Nat → CBRegs
  s2cr : Nat → Nat
  smr : Nat → Nat
  scr0 : Nat
  tlbiallh : Nat
  tlbiallnsnh : Nat
  stlbgsync : Nat

inductive RegAddr
  | cbSCTLR (j : Nat)
  | cbACTLR (j : Nat)
  | cbTTBCR2 (j : Nat)
  | cbTTBR0 (j : Nat)
  | cbTTBR1 (j : Nat)
  | cbTTBCR (j : Nat)
  | cbCONTEXTIDR (j : Nat)
  | cbMAIR0 (j : Nat)
  | cbMAIR1 (j : Nat)
  | cbCBA2R (j : Nat)
  | cbCBAR (j : Nat)
  | s2cr (j : Nat)
  | smr (j : Nat)
  | scr0
  | tlbiallh
  | tlbiallnsnh
  | stlbgsync
deriving DecidableEq, Repr

def setCb (rf : RegFile) (j : Nat) (c : CBRegs) : RegFile :=
  { rf with cb := fun i => if i = j then c else rf.cb i }

def applyWrite (rf : RegFile) (w : RegAddr × Nat) : RegFile :=
  match w.1 with
  | RegAddr.cbSCTLR j => setCb rf j { rf.cb j with sctlr := w.2 }
  | RegAddr.cbACTLR j => setCb rf j { rf.cb j with actlr := w.2 }
  | RegAddr.cbTTBCR2 j => setCb rf j { rf.cb j with ttbcr2 := w.2 }
  | RegAddr.cbTTBR0 j => setCb rf j { rf.cb j with ttbr0 := w.2 }
  | RegAddr.cbTTBR1 j => setCb rf j { rf.cb j with ttbr1 := w.2 }
  | RegAddr.cbTTBCR j => setCb rf j { rf.cb j with ttbcr := w.2 }
  | RegAddr.cbCONTEXTIDR j => setCb rf j { rf.cb j with contextidr := w.2 }
  | RegAddr.cbMAIR0 j => setCb rf j { rf.cb j with mair0 := w.2 }
  | RegAddr.cbMAIR1 j => setCb rf j { rf.cb j with mair1 := w.2 }
  | RegAddr.cbCBA2R j => setCb rf j { rf.cb j with cba2r := w.2 }
  | RegAddr.cbCBAR j => setCb rf j { rf.cb j with cbar := w.2 }
  | RegAddr.s2cr j => { rf with s2cr := fun i => if i = j then w.2 else rf.s2cr i }
  | RegAddr.smr j => { rf with smr := fun i => if i = j then w.2 else rf.smr i }
  | RegAddr.scr0 => { rf with scr0 := w.2 }
  | RegAddr.tlbiallh => { rf with tlbiallh := w.2 }
  | RegAddr.tlbiallnsnh => { rf with tlbiallnsnh := w.2 }
  | RegAddr.stlbgsync => { rf with stlbgsync := w.2 }

def applyWrites (rf : RegFile) (ws : List (RegAddr × Nat)) : RegFile :=
  ws.foldl applyWrite rf

/-- The per-bank read loop of `arm_smmu_pm_suspend` (arm-smmu.c:4345-4358):
banks j, j+1, ... (rem of them), eleven registers each, flattened. -/
def captureCb (rf : RegFile) : Nat → Nat → List Nat
  | _, 0 => []
  | j, rem + 1 =>
    (rf.cb j).sctlr :: (rf.cb j).actlr :: (rf.cb j).ttbcr2 :: (rf.cb j).ttbr0 ::
    (rf.cb j).ttbr1 :: (rf.cb j).ttbcr :: (rf.cb j).contextidr :: (rf.cb j).mair0 ::
    (rf.cb j).mair1 :: (rf.cb j).cba2r :: (rf.cb j).cbar :: captureCb rf (j + 1) rem

/-- The per-group read loop of `arm_smmu_pm_suspend` (arm-smmu.c:4360-4365). -/
def captureGlobal (rf : RegFile) : Nat → Nat → List Nat
  | _, 0 => []
  | j, rem + 1 => rf.s2cr j :: rf.smr j :: captureGlobal rf (j + 1) rem

structure SmmuSnap where
  attach_count : Nat
  nCb : Nat
  nSmr : Nat
  rf : RegFile
  regs : List Nat
  reg_global : List Nat

/-- `arm_smmu_pm_suspend` (arm-smmu.c:4319): a no-op returning 0 with no
register access when nothing is attached; otherwise fill the flat shadow
buffers. -/
def arm_smmu_pm_suspend (s : SmmuSnap) : Int × SmmuSnap :=
  if s.attach_count = 0 then (0, s)
  else
    (0, { s with
      regs := captureCb s.rf 0 s.nCb,
      reg_global := captureGlobal s.rf 0 s.nSmr ++ [s.rf.scr0] })

/-- The per-bank write loop of `arm_smmu_pm_resume` (arm-smmu.c:4399-4412):
eleven buffer entries per bank, consumed in capture order. -/
def resumeCbWrites : Nat → Nat → List Nat → List (RegAddr × Nat)
  | _, 0, _ => []
  | j, rem + 1, buf =>
    (RegAddr.cbSCTLR j, buf.getD 0 0) :: (RegAddr.cbACTLR j, buf.getD 1 0) ::
    (RegAddr.cbTTBCR2 j, buf.getD 2 0) :: (RegAddr.cbTTBR0 j, buf.getD 3 0) ::
    (RegAddr.cbTTBR1 j, buf.getD 4 0) :: (RegAddr.cbTTBCR j, buf.getD 5 0) ::
    (RegAddr.cbCONTEXTIDR j, buf.getD 6 0) :: (RegAddr.cbMAIR0 j, buf.getD 7 0) ::
    (RegAddr.cbMAIR1 j, buf.getD 8 0) :: (RegAddr.cbCBA2R j, buf.getD 9 0) ::
    (RegAddr.cbCBAR j, buf.getD 10 0) :: resumeCbWrites (j + 1) rem (buf.drop 11)

/-- The per-group write loop of `arm_smmu_pm_resume` (arm-smmu.c:4414-4419). -/
def resumeGlobalWrites : Nat → Nat → List Nat → List (RegAddr × Nat)
  | _, 0, _ => []
  | j, rem + 1, buf =>
    (RegAddr.s2cr j, buf.getD 0 0) :: (RegAddr.smr j, buf.getD 1 0) ::
      resumeGlobalWrites (j + 1) rem (buf.drop 2)

/-- `arm_smmu_pm_resume` (arm-smmu.c:4373): a no-op returning 0 when
nothing is attached; otherwise replay the shadow buffers in capture order,
then TLB invalidate-all (hyp and non-secure non-hyp) and a global sync.
Returns (0, the ordered write list, the state with the written view). -/
def arm_smmu_pm_resume (s : SmmuSnap) : Int × List (RegAddr × Nat) × SmmuSnap :=
  if s.attach_count = 0 then (0, [], s)
  else
    let ws := resumeCbWrites 0 s.nCb s.regs ++
      resumeGlobalWrites 0 s.nSmr s.reg_global ++
      [(RegAddr.scr0, s.reg_global.getD (2 * s.nSmr) 0)] ++
      [(RegAddr.tlbiallh, 0), (RegAddr.tlbiallnsnh, 0), (RegAddr.stlbgsync, 0)]
    (0, ws, { s with rf := applyWrites s.rf ws })

/-- The (address, value) pairs suspend reads, in read order. -/
def captureCbPairs (rf : RegFile) : Nat → Nat → List (RegAddr × Nat)
  | _, 0 => []
  | j, rem + 1 =>
    (RegAddr.cbSCTLR j, (rf.cb j).sctlr) :: (RegAddr.cbACTLR j, (rf.cb j).actlr) ::
    (RegAddr.cbTTBCR2 j, (rf.cb j).ttbcr2) :: (RegAddr.cbTTBR0 j, (rf.cb j).ttbr0) ::
    (RegAddr.cbTTBR1 j, (rf.cb j).ttbr1) :: (RegAddr.cbTTBCR j, (rf.cb j).ttbcr) ::
    (RegAddr.cbCONTEXTIDR j, (rf.cb j).contextidr) ::
    (RegAddr.cbMAIR0 j, (rf.cb j).mair0) :: (RegAddr.cbMAIR1 j, (rf.cb j).mair1) ::
    (RegAddr.cbCBA2R j, (rf.cb j).cba2r) :: (RegAddr.cbCBAR j, (rf.cb j).cbar) ::
    captureCbPairs rf (j + 1) rem

def captureGlobalPairs (rf : RegFile) : Nat → Nat → List (RegAddr × Nat)
  | _, 0 => []
  | j, rem + 1 =>
    (RegAddr.s2cr j, rf.s2cr j) :: (RegAddr.smr j, rf.smr j) ::
      captureGlobalPairs rf (j + 1) rem

/-- Everything suspend captured, as the write list resume should replay. -/
def suspendWriteList (rf : RegFile) (nCb nSmr : Nat) : List (RegAddr × Nat) :=
  captureCbPairs rf 0 nCb ++ captureGlobalPairs rf 0 nSmr ++ [(RegAddr.scr0, rf.scr0)]

/-- The state resume sees: the buffers filled by suspend, the volatile
registers clobbered by the power collapse. -/
def resumeInput (s : SmmuSnap) (rfClobber : RegFile) : SmmuSnap :=
  { (arm_smmu_pm_suspend s).2 with rf := rfClobber }

/-- Banks [j, j+rem) hold rf's values, the rest rf's own. -/
def setCbRange (rf' rf : RegFile) (j rem : Nat) : RegFile :=
  { rf' with cb := fun i => if j ≤ i ∧ i < j + rem then rf.cb i else rf'.cb i }

def setGlobalRange (rf' rf : RegFile) (j rem : Nat) : RegFile :=
  { rf' with
    s2cr := fun i => if j ≤ i ∧ i < j + rem then rf.s2cr i else rf'.s2cr i,
    smr := fun i => if j ≤ i ∧ i < j + rem then rf.smr i else rf'.smr i }

theorem apply_cb_block (rf' : RegFile) (j : Nat) (c : CBRegs)
    (rest : List (RegAddr × Nat)) :
    applyWrites rf' ((RegAddr.cbSCTLR j, c.sctlr) :: (RegAddr.cbACTLR j, c.actlr) ::
      (RegAddr.cbTTBCR2 j, c.ttbcr2) :: (RegAddr.cbTTBR0 j, c.ttbr0) ::
      (RegAddr.cbTTBR1 j, c.ttbr1) :: (RegAddr.cbTTBCR j, c.ttbcr) ::
      (RegAddr.cbCONTEXTIDR j, c.contextidr) :: (RegAddr.cbMAIR0 j, c.mair0) ::
      (RegAddr.cbMAIR1 j, c.mair1) :: (RegAddr.cbCBA2R j, c.cba2r) ::
      (RegAddr.cbCBAR j, c.cbar) :: rest) =
    applyWrites (setCb rf' j c) rest := by
  simp only [applyWrites, List.foldl_cons]
  congr 1
  simp only [applyWrite, setCb]
  refine RegFile.ext ?_ rfl rfl rfl rfl rfl rfl
  funext i
  by_cases hij : i = j
  · subst hij
    simp
  · simp [hij]

theorem apply_global_block (rf' : RegFile) (j v1 v2 : Nat)
    (rest : List (RegAddr × Nat)) :
    applyWrites rf' ((RegAddr.s2cr j, v1) :: (RegAddr.smr j, v2) :: rest) =
    applyWrites { rf' with
      s2cr := fun i => if i = j then v1 else rf'.s2cr i,
      smr := fun i => if i = j then v2 else rf'.smr i } rest := by
  simp only [applyWrites, List.foldl_cons]
  congr 1

theorem applyWrites_captureCbPairs : ∀ (rem j : Nat) (rf rf' : RegFile)
    (rest : List (RegAddr × Nat)),
    applyWrites rf' (captureCbPairs rf j rem ++ rest) =
      applyWrites (setCbRange rf' rf j rem) rest := by
  intro rem
  induction rem with
  | zero =>
    intro j rf rf' rest
    have hempty : setCbRange rf' rf j 0 = rf' := by
      refine RegFile.ext ?_ rfl rfl rfl rfl rfl rfl
      funext i
      simp only [setCbRange]
      rw [if_neg (by omega)]
    rw [hempty]
    simp [captureCbPairs]
  | succ rem ih =>
    intro j rf rf' rest
    simp only [captureCbPairs, List.cons_append]
    rw [apply_cb_block, ih (j + 1) rf (setCb rf' j (rf.cb j)) rest]
    congr 1
    refine RegFile.ext ?_ rfl rfl rfl rfl rfl rfl
    funext i
    simp only [setCbRange, setCb]
    by_cases hij : i = j
    · subst hij
      rw [if_neg (by omega), if_pos rfl, if_pos (by omega)]
    · by_cases hin : j + 1 ≤ i ∧ i < j + 1 + rem
      · rw [if_pos hin, if_pos (by omega)]
      · rw [if_neg hin, if_neg hij, if_neg (by omega)]

theorem applyWrites_captureGlobalPairs : ∀ (rem j : Nat) (rf rf' : RegFile)
    (rest : List (RegAddr × Nat)),
    applyWrites rf' (captureGlobalPairs rf j rem ++ rest) =
      applyWrites (setGlobalRange rf' rf j rem) rest := by
  intro rem
  induction rem with
  | zero =>
    intro j rf rf' rest
    have hempty : setGlobalRange rf' rf j 0 = rf' := by
      refine RegFile.ext rfl ?_ ?_ rfl rfl rfl rfl <;>
        (funext i; simp only [setGlobalRange]; rw [if_neg (by omega)])
    rw [hempty]
    simp [captureGlobalPairs]
  | succ rem ih =>
    intro j rf rf' rest
    simp only [captureGlobalPairs, List.cons_append]
    rw [apply_global_block, ih (j + 1) rf _ rest]
    congr 1
    refine RegFile.ext rfl ?_ ?_ rfl rfl rfl rfl <;>
      (funext i
       simp only [setGlobalRange]
       by_cases hij : i = j
       · subst hij
         rw [if_neg (by omega), if_pos rfl, if_pos (by omega)]
       · by_cases hin : j + 1 ≤ i ∧ i < j + 1 + rem
         · rw [if_pos hin, if_pos (by omega)]
         · rw [if_neg hin, if_neg hij, if_neg (by omega)])

theorem resumeCbWrites_capture (rf : RegFile) : ∀ (rem j : Nat),
    resumeCbWrites j rem (captureCb rf j rem) = captureCbPairs rf j rem := by
  intro rem
  induction rem with
  | zero => intro j; rfl
  | succ rem ih =>
    intro j
    simp only [captureCb, resumeCbWrites, captureCbPairs, List.getD_cons_zero,
      List.getD_cons_succ, List.drop_succ_cons, List.drop_zero]
    rw [ih (j + 1)]

theorem resumeGlobalWrites_capture (rf : RegFile) : ∀ (rem j : Nat) (tail : List Nat),
    resumeGlobalWrites j rem (captureGlobal rf j rem ++ tail) =
      captureGlobalPairs rf j rem := by
  intro rem
  induction rem with
  | zero => intro j tail; rfl
  | succ rem ih =>
    intro j tail
    simp only [captureGlobal, List.cons_append, resumeGlobalWrites,
      List.getD_cons_zero, List.getD_cons_succ, List.drop_succ_cons, List.drop_zero]
    rw [ih (j + 1) tail]
    rfl

theorem getD_captureGlobal_append (rf : RegFile) : ∀ (rem j x : Nat),
    (captureGlobal rf j rem ++ [x]).getD (2 * rem) 0 = x := by
  intro rem
  induction rem with
  | zero => intro j x; rfl
  | succ rem ih =>
    intro j x
    simp only [captureGlobal, List.cons_append, Nat.mul_succ, List.getD_cons_succ]
    exact ih (j + 1) x

/-- C8: suspend and resume return success and touch nothing when the
attach count is zero; otherwise suspend fills the flat shadow buffers
with the fixed ordered per-bank register tuple, the per-group stream
registers and the global enable register, and resume replays exactly the
captured values in the same order followed by a global TLB invalidate-all
and a sync, so the restored view of every captured register equals the
pre-suspend view whatever the power collapse left in the hardware. -/
theorem suspend_resume_roundtrip (s : SmmuSnap) (rfC : RegFile)
    (h : 0 < s.attach_count) :
    (arm_smmu_pm_suspend s).1 = 0 ∧
    (arm_smmu_pm_resume (resumeInput s rfC)).1 = 0 ∧
    (arm_smmu_pm_resume (resumeInput s rfC)).2.1 =
      suspendWriteList s.rf s.nCb s.nSmr ++
        [(RegAddr.tlbiallh, 0), (RegAddr.tlbiallnsnh, 0), (RegAddr.stlbgsync, 0)] ∧
    (∀ j, j < s.nCb →
      (arm_smmu_pm_resume (resumeInput s rfC)).2.2.rf.cb j = s.rf.cb j) ∧
    (∀ j, j < s.nSmr →
      (arm_smmu_pm_resume (resumeInput s rfC)).2.2.rf.s2cr j = s.rf.s2cr j ∧
      (arm_smmu_pm_resume (resumeInput s rfC)).2.2.rf.smr j = s.rf.smr j) ∧
    (arm_smmu_pm_resume (resumeInput s rfC)).2.2.rf.scr0 = s.rf.scr0 ∧
    (∀ t : SmmuSnap, t.attach_count = 0 →
      arm_smmu_pm_suspend t = (0, t) ∧ arm_smmu_pm_resume t = (0, [], t)) := by
  have h0 : ¬ s.attach_count = 0 := by omega
  have hregs : (resumeInput s rfC).regs = captureCb s.rf 0 s.nCb := by
    simp [resumeInput, arm_smmu_pm_suspend, h0]
  have hrg : (resumeInput s rfC).reg_global =
      captureGlobal s.rf 0 s.nSmr ++ [s.rf.scr0] := by
    simp [resumeInput, arm_smmu_pm_suspend, h0]
  have hac : (resumeInput s rfC).attach_count = s.attach_count := by
    simp [resumeInput, arm_smmu_pm_suspend, h0]
  have hncb : (resumeInput s rfC).nCb = s.nCb := by
    simp [resumeInput, arm_smmu_pm_suspend, h0]
  have hnsmr : (resumeInput s rfC).nSmr = s.nSmr := by
    simp [resumeInput, arm_smmu_pm_suspend, h0]
  have hrf : (resumeInput s rfC).rf = rfC := rfl
  have h0' : ¬ (resumeInput s rfC).attach_count = 0 := by rw [hac]; exact h0
  have hws : (arm_smmu_pm_resume (resumeInput s rfC)).2.1 =
      captureCbPairs s.rf 0 s.nCb ++ captureGlobalPairs s.rf 0 s.nSmr ++
        [(RegAddr.scr0, s.rf.scr0)] ++
        [(RegAddr.tlbiallh, 0), (RegAddr.tlbiallnsnh, 0), (RegAddr.stlbgsync, 0)] := by
    unfold arm_smmu_pm_resume
    rw [if_neg h0']
    simp only [hregs, hrg, hncb, hnsmr]
    rw [resumeCbWrites_capture s.rf s.nCb 0,
      resumeGlobalWrites_capture s.rf s.nSmr 0 [s.rf.scr0],
      getD_captureGlobal_append s.rf s.nSmr 0 s.rf.scr0]
  have hfinal : (arm_smmu_pm_resume (resumeInput s rfC)).2.2.rf =
      { setGlobalRange (setCbRange rfC s.rf 0 s.nCb) s.rf 0 s.nSmr with
        scr0 := s.rf.scr0, tlbiallh := 0, tlbiallnsnh := 0, stlbgsync := 0 } := by
    unfold arm_smmu_pm_resume
    rw [if_neg h0']
    simp only [hregs, hrg, hncb, hnsmr, hrf]
    rw [resumeCbWrites_capture s.rf s.nCb 0,
      resumeGlobalWrites_capture s.rf s.nSmr 0 [s.rf.scr0],
      getD_captureGlobal_append s.rf s.nSmr 0 s.rf.scr0,
      List.append_assoc, List.append_assoc,
      applyWrites_captureCbPairs s.nCb 0 s.rf rfC,
      applyWrites_captureGlobalPairs s.nSmr 0 s.rf _]
    rfl
  refine ⟨by simp [arm_smmu_pm_suspend, h0], ?_, hws.trans ?_, ?_, ?_, ?_, ?_⟩
  · unfold arm_smmu_pm_resume
    rw [if_neg h0']
  · simp [suspendWriteList, List.append_assoc]
  · intro j hj
    rw [hfinal]
    show (setGlobalRange (setCbRange rfC s.rf 0 s.nCb) s.rf 0 s.nSmr).cb j = s.rf.cb j
    simp only [setGlobalRange, setCbRange]
    rw [if_pos (by omega)]
  · intro j hj
    rw [hfinal]
    constructor
    · show (setGlobalRange (setCbRange rfC s.rf 0 s.nCb) s.rf 0 s.nSmr).s2cr j =
        s.rf.s2cr j
      simp only [setGlobalRange]
      rw [if_pos (by omega)]
    · show (setGlobalRange (setCbRange rfC s.rf 0 s.nCb) s.rf 0 s.nSmr).smr j =
        s.rf.smr j
      simp only [setGlobalRange]
      rw [if_pos (by omega)]
  · rw [hfinal]
  · intro t ht
    constructor
    · simp [arm_smmu_pm_suspend, ht]
    · simp [arm_smmu_pm_resume, ht]

/-- Witness for `suspend_resume_roundtrip`: two banks and two groups, a
distinctive register view, full clobber to zero between suspend and
resume; bank 1 and sCR0 are restored bit-identically. -/
theorem suspend_resume_roundtrip_witness :
    (arm_smmu_pm_resume (resumeInput
      ⟨1, 2, 2, ⟨fun i => ⟨i, 2, 3, 4, 5, 6, 7, 8, 9, 10, 11⟩,
        fun i => 100 + i, fun i => 200 + i, 7, 0, 0, 0⟩, [], []⟩
      ⟨fun _ => ⟨0, 0, 0, 0, 0, 0, 0, 0, 0, 0, 0⟩,
        fun _ => 0, fun _ => 0, 0, 0, 0, 0⟩)).2.2.rf.cb 1 =
      ⟨1, 2, 3, 4, 5, 6, 7, 8, 9, 10, 11⟩ ∧
    (arm_smmu_pm_resume (resumeInput
      ⟨1, 2, 2, ⟨fun i => ⟨i, 2, 3, 4, 5, 6, 7, 8, 9, 10, 11⟩,
        fun i => 100 + i, fun i => 200 + i, 7, 0, 0, 0⟩, [], []⟩
      ⟨fun _ => ⟨0, 0, 0, 0, 0, 0, 0, 0, 0, 0, 0⟩,
        fun _ => 0, fun _ => 0, 0, 0, 0, 0⟩)).2.2.rf.scr0 = 7 := by
  have hthm := suspend_resume_roundtrip
    ⟨1, 2, 2, ⟨fun i => ⟨i, 2, 3, 4, 5, 6, 7, 8, 9, 10, 11⟩,
      fun i => 100 + i, fun i => 200 + i, 7, 0, 0, 0⟩, [], []⟩
    ⟨fun _ => ⟨0, 0, 0, 0, 0, 0, 0, 0, 0, 0, 0⟩,
      fun _ => 0, fun _ => 0, 0, 0, 0, 0⟩ (by decide)
  exact ⟨hthm.2.2.2.1 1 (by decide), hthm.2.2.2.2.2.1⟩

end ArmSmmu
